import Mathlib

/-!
Verification of the recursive-descent parser in `src/parser.py`.

The parser is embedded shallowly: the terminal stream is a `List Terminal`
(the scanner pads the end of the stream with an end-of-input terminal, so
the current lookahead of an exhausted stream is the `EOT` terminal), each
`Parser.parse_*` method becomes a Lean function threading the remaining
stream explicitly, and Python exceptions become `Except` errors.  The
mutually recursive parsing procedures take a fuel argument (structural
recursion); `Err.fuel` marks fuel exhaustion and is an artifact of the
embedding, never of the program.  Fuel sufficiency for every input is
proved below (`parser_terminates`).
-/

/-- Token kinds of the language.
Modelled from the spec: `tokens.py` is not part of the sources; the
members are exactly the kinds `src/parser.py` mentions (`K.IDENTIFIER`,
`K.INTEGER_LITERAL`, `K.BOOLEAN_LITERAL`, `K.OPERATOR`, `K.FUNC`, `K.IF`,
`K.ELSE`, `K.WHILE`, `K.RETURN`, `K.END`, `K.LEFT_PAR`, `K.RIGHT_PAR`,
`K.COLON`, `K.SEMICOLON`, `K.COMMA`, `K.EOT`). -/
inductive Kind where
  | IDENTIFIER
  | INTEGER_LITERAL
  | BOOLEAN_LITERAL
  | OPERATOR
  | FUNC
  | IF
  | ELSE
  | WHILE
  | RETURN
  | END
  | LEFT_PAR
  | RIGHT_PAR
  | COLON
  | SEMICOLON
  | COMMA
  | EOT
deriving DecidableEq, Repr

/-- One classified lexical token.
Modelled from the spec: the scanner is out of scope; §6 says a `Terminal`
carries `{kind, spelling, line, column}`. -/
structure Terminal where
  kind : Kind
  spelling : String
  line : Nat
  col : Nat
deriving DecidableEq, Repr

/-- Parser failures.
Modelled from the spec: `exceptions.py` is not part of the sources; §7
lists the diagnostics and the data they carry.  Two extra constructors are
not diagnostics of the program: `unboundLocal` embeds the Python
`UnboundLocalError` raised when `parse_single_statement` reads the local
`elseBlock` that was never bound (src/parser.py line 70), and `fuel` is
the out-of-fuel marker of the embedding. -/
inductive Err where
  | unexpectedToken (expected : Kind) (actual : Terminal) (line col : Nat)
  | unsupportedCommandToken (actual : Terminal) (line col : Nat)
  | unsupportedDeclarationToken (actual : Terminal) (line col : Nat)
  | unsupportedExpressionToken (actual : Terminal) (line col : Nat)
  | unexpectedEndOfProgram (actual : Terminal)
  | unboundLocal
  | fuel
deriving DecidableEq, Repr

/-- The remaining terminal stream of the scanner. -/
abbrev PState := List Terminal

/-- The end-of-input terminal the scanner returns indefinitely once the
source is exhausted (spec §6: idempotent at end-of-stream). -/
def eotTerminal : Terminal := ⟨Kind.EOT, "", 0, 0⟩

/-- `self.current_terminal`: the single lookahead terminal. -/
def cur (s : PState) : Terminal := s.headD eotTerminal

/-- `self.current_terminal = self.scanner.scan()`: advance the stream. -/
def adv (s : PState) : PState := s.tail

/-- The list `[K.IDENTIFIER, K.FUNC, K.IF, K.WHILE, K.RETURN]` tested by
the loop of `parse_command` (src/parser.py lines 26-27). -/
def isCommandStarter (k : Kind) : Bool :=
  k == .IDENTIFIER || k == .FUNC || k == .IF || k == .WHILE || k == .RETURN

/-- The list `[K.RETURN, K.IF, K.WHILE]` tested by `parse_single_command`
(src/parser.py line 35). -/
def isStatementKeyword (k : Kind) : Bool :=
  k == .RETURN || k == .IF || k == .WHILE

/-- The reserved type-name spellings `['int', 'str', 'bool']`
(src/parser.py lines 39 and 95). -/
def isTypeName (sp : String) : Bool :=
  sp == "int" || sp == "str" || sp == "bool"

/-- The loop condition of `parse_declaration` (src/parser.py lines 94-95):
`self.current_terminal.kind is K.FUNC or self.current_terminal.spelling in
['int', 'str', 'bool']`.  Note it inspects the spelling without requiring
the identifier kind. -/
def declLoopCond (t : Terminal) : Bool :=
  t.kind == .FUNC || isTypeName t.spelling

/-- The list `[K.IDENTIFIER, K.INTEGER_LITERAL, K.OPERATOR,
K.BOOLEAN_LITERAL]` tested by `parse_expressions_list`
(src/parser.py line 193). -/
def isExprStarter (k : Kind) : Bool :=
  k == .IDENTIFIER || k == .INTEGER_LITERAL || k == .OPERATOR || k == .BOOLEAN_LITERAL

/-- Terminal AST leaf wrapping a spelling (abstract_tree/terminals). -/
structure Identifier where
  spelling : String
deriving DecidableEq, Repr

/-- Terminal AST leaf wrapping a spelling (abstract_tree/terminals). -/
structure IntegerLiteral where
  spelling : String
deriving DecidableEq, Repr

/-- Terminal AST leaf wrapping a spelling (abstract_tree/terminals). -/
structure Operator where
  spelling : String
deriving DecidableEq, Repr

/-- `TypeDenoter(spelling=...)` as constructed by `parse_type_denoter`
(src/parser.py lines 202-204): its `spelling` field receives the result of
`parse_identifier`, which is `None` when the lookahead is not an
identifier, hence the `Option`. -/
structure TypeDenoter where
  spelling : Option Identifier
deriving DecidableEq, Repr

mutual

/-- `Command`: ordered sequence of single commands.
Modelled from the spec: the concrete node classes are not under src/;
§3 gives the fields, and `src/parser.py` fixes how they are filled. -/
inductive Command where
  | mk (commands : List SingleCommand)

/-- `SingleCommand` variants.  `StatementCommand.statement` is `Option`
because `parse_single_statement` falls through (returning Python `None`)
when the lookahead is none of if/while/return/identifier. -/
inductive SingleCommand where
  | declarationCommand (declaration : Declaration)
  | statementCommand (statement : Option SingleStatement)

/-- `Declaration`: ordered sequence of single declarations. -/
inductive Declaration where
  | mk (declarations : List SingleDeclaration)

/-- `SingleDeclaration` variants.  `funcDeclaration.identifier` is `Bool`
because src/parser.py line 102 stores the result of
`self.accept(K.IDENTIFIER)`, and `accept` returns `True`
(line 234) rather than an identifier node.  The `Option Identifier`
fields receive results of `parse_identifier`. -/
inductive SingleDeclaration where
  | funcDeclaration (identifier : Bool) (args : Option ExpressionsList) (commands : Command)
  | varDeclaration (type_denoter : TypeDenoter) (identifier : Option Identifier)
  | varDeclarationWithAssignment (type_denoter : TypeDenoter) (identifier : Option Identifier)
      (operator : Operator) (expression : Expression)

/-- `SingleStatement` variants.  `ifStatement.elseCom` is the optional
else-branch (spec §3: absence means no else-branch was parsed). -/
inductive SingleStatement where
  | ifStatement (expr : Expression) (ifCom : Command) (elseCom : Option Command)
  | whileStatement (expr : Expression) (command : Command)
  | returnStatement (expression : Expression)
  | expressionStatement (expressions : Expression)

/-- `Expression` variants.  `Option` fields receive results of
`parse_identifier` / `parse_integer_literal` / `parse_expressions_list`,
each of which can produce Python `None`. -/
inductive Expression where
  | intLiteralExpression (literal : Option IntegerLiteral)
  | booleanLiteralExpression (literal : Option Identifier)
  | unaryExpression (operator : Operator) (expression : Expression)
  | binaryExpression (operator : Operator) (expression1 : Expression) (expression2 : Expression)
  | varExpression (identifier : Option Identifier)
  | callExpression (name : Option Identifier) (args : Option ExpressionsList)

/-- `ExpressionsList`: ordered sequence of expressions. -/
inductive ExpressionsList where
  | mk (expressions : List Expression)

end

/-- `Program`: root node wrapping the top-level command sequence. -/
structure Program where
  command : Command

/-- `Parser.accept` (src/parser.py lines 231-242): on a kind match advance
and return `True`; otherwise raise `UnexpectedTokenException`.
Modelled from the spec for the position data: the scanner fields
`current_line`/`current_column` are taken to be the offending terminal's
position (§7: diagnostics carry the line/column of the offending
terminal). -/
def accept (expected : Kind) (s : PState) : Except Err (Bool × PState) :=
  if (cur s).kind = expected then .ok (true, adv s)
  else .error (.unexpectedToken expected (cur s) (cur s).line (cur s).col)

/-- `Parser.parse_identifier` (src/parser.py lines 212-216): capture the
spelling and advance on an identifier; otherwise fall through, returning
Python `None` without consuming and without raising. -/
def parse_identifier (s : PState) : Option Identifier × PState :=
  if (cur s).kind = .IDENTIFIER then (some ⟨(cur s).spelling⟩, adv s) else (none, s)

/-- `Parser.parse_integer_literal` (src/parser.py lines 206-210): capture
the spelling and advance on an integer literal; otherwise fall through,
returning Python `None` without consuming and without raising. -/
def parse_integer_literal (s : PState) : Option IntegerLiteral × PState :=
  if (cur s).kind = .INTEGER_LITERAL then (some ⟨(cur s).spelling⟩, adv s) else (none, s)

/-- `Parser.parse_operator` (src/parser.py lines 218-229): capture the
spelling and advance on an operator; otherwise raise
`UnexpectedTokenException`. -/
def parse_operator (s : PState) : Except Err (Operator × PState) :=
  if (cur s).kind = .OPERATOR then .ok (⟨(cur s).spelling⟩, adv s)
  else .error (.unexpectedToken .OPERATOR (cur s) (cur s).line (cur s).col)

/-- `Parser.parse_type_denoter` (src/parser.py lines 202-204). -/
def parse_type_denoter (s : PState) : TypeDenoter × PState :=
  let p := parse_identifier s
  (⟨p.1⟩, p.2)

/-- Sequential composition of two parsing steps: run the first; a raised
exception propagates to the caller (spec §7: every failure aborts the
parse immediately), otherwise continue with its value and the advanced
stream.  This is the embedding of writing one Python statement after
another inside a parsing method. -/
def pseq {α γ : Type} (x : Except Err (α × PState)) (F : α → PState → Except Err γ) :
    Except Err γ :=
  match x with
  | .error e => .error e
  | .ok (a, s) => F a s

/-- Projection `command.commands` (the list attribute of the `Command`
node). -/
def Command.commands : Command → List SingleCommand
  | ⟨cs⟩ => cs

/-- Projection `declaration.declarations` (the list attribute of the
`Declaration` node). -/
def Declaration.declarations : Declaration → List SingleDeclaration
  | ⟨ds⟩ => ds

/-- Projection `expressions_list.expressions` (the list attribute of the
`ExpressionsList` node). -/
def ExpressionsList.expressions : ExpressionsList → List Expression
  | ⟨es⟩ => es

mutual

/-- `Parser.parse_command` (src/parser.py lines 24-29): while the
lookahead is a command starter, parse one single command and append. -/
def parse_command : Nat → PState → Except Err (Command × PState)
  | 0, _ => .error .fuel
  | fuel+1, s =>
    if isCommandStarter (cur s).kind then
      pseq (parse_single_command fuel s) fun sc s1 =>
      pseq (parse_command fuel s1) fun cmd s2 =>
      .ok (⟨sc :: cmd.commands⟩, s2)
    else .ok (⟨[]⟩, s)
termination_by structural fuel s => fuel

/-- `Parser.parse_single_command` (src/parser.py lines 31-52). -/
def parse_single_command : Nat → PState → Except Err (SingleCommand × PState)
  | 0, _ => .error .fuel
  | fuel+1, s =>
    if (cur s).kind = .FUNC then
      pseq (parse_declaration fuel s) fun d s1 =>
      .ok (.declarationCommand d, s1)
    else if isStatementKeyword (cur s).kind then
      pseq (parse_single_statement fuel s) fun st s1 =>
      .ok (.statementCommand st, s1)
    else if (cur s).kind = .IDENTIFIER then
      if isTypeName (cur s).spelling then
        pseq (parse_declaration fuel s) fun d s1 =>
        pseq (accept .SEMICOLON s1) fun _ s2 =>
        .ok (.declarationCommand d, s2)
      else
        pseq (parse_single_statement fuel s) fun st s1 =>
        pseq (accept .SEMICOLON s1) fun _ s2 =>
        .ok (.statementCommand st, s2)
    else .error (.unsupportedCommandToken (cur s) (cur s).line (cur s).col)
termination_by structural fuel s => fuel

/-- `Parser.parse_single_statement` (src/parser.py lines 54-90).  In the
if-branch, when the else keyword is absent, Python evaluates
`accept(K.END)` (line 66) and then reads the never-bound local
`elseBlock` (line 70), raising `UnboundLocalError`, embedded as
`Err.unboundLocal`.  When no branch matches, Python returns `None`. -/
def parse_single_statement : Nat → PState → Except Err (Option SingleStatement × PState)
  | 0, _ => .error .fuel
  | fuel+1, s =>
    if (cur s).kind = .IF then
      pseq (accept .IF s) fun _ s1 =>
      pseq (accept .LEFT_PAR s1) fun _ s2 =>
      pseq (parse_expression fuel s2) fun expression s3 =>
      pseq (accept .RIGHT_PAR s3) fun _ s4 =>
      pseq (accept .COLON s4) fun _ s5 =>
      pseq (parse_command fuel s5) fun ifBlock s6 =>
      if (cur s6).kind = .ELSE then
        pseq (accept .ELSE s6) fun _ s7 =>
        pseq (accept .COLON s7) fun _ s8 =>
        pseq (parse_command fuel s8) fun elseBlock s9 =>
        pseq (accept .END s9) fun _ s10 =>
        .ok (some (.ifStatement expression ifBlock (some elseBlock)), s10)
      else
        pseq (accept .END s6) fun _ _ =>
        .error .unboundLocal
    else if (cur s).kind = .WHILE then
      pseq (accept .WHILE s) fun _ s1 =>
      pseq (accept .LEFT_PAR s1) fun _ s2 =>
      pseq (parse_expression fuel s2) fun expression s3 =>
      pseq (accept .RIGHT_PAR s3) fun _ s4 =>
      pseq (accept .COLON s4) fun _ s5 =>
      pseq (parse_command fuel s5) fun command s6 =>
      pseq (accept .END s6) fun _ s7 =>
      .ok (some (.whileStatement expression command), s7)
    else if (cur s).kind = .RETURN then
      pseq (accept .RETURN s) fun _ s1 =>
      pseq (parse_single_expression fuel s1) fun expression s2 =>
      .ok (some (.returnStatement expression), s2)
    else if (cur s).kind = .IDENTIFIER then
      pseq (parse_expression fuel s) fun expressions s1 =>
      .ok (some (.expressionStatement expressions), s1)
    else .ok (none, s)
termination_by structural fuel s => fuel

/-- `Parser.parse_declaration` (src/parser.py lines 92-97): while the
lookahead satisfies `declLoopCond`, parse one single declaration and
append. -/
def parse_declaration : Nat → PState → Except Err (Declaration × PState)
  | 0, _ => .error .fuel
  | fuel+1, s =>
    if declLoopCond (cur s) then
      pseq (parse_single_declaration fuel s) fun d s1 =>
      pseq (parse_declaration fuel s1) fun dcl s2 =>
      .ok (⟨d :: dcl.declarations⟩, s2)
    else .ok (⟨[]⟩, s)
termination_by structural fuel s => fuel

/-- `Parser.parse_single_declaration` (src/parser.py lines 99-137).  In
the func-branch the identifier field receives the `True` returned by
`accept(K.IDENTIFIER)` (line 102), the body command sequence is parsed
twice and the second result is discarded (lines 107-108). -/
def parse_single_declaration : Nat → PState → Except Err (SingleDeclaration × PState)
  | 0, _ => .error .fuel
  | fuel+1, s =>
    if (cur s).kind = .FUNC then
      pseq (accept .FUNC s) fun _ s1 =>
      pseq (accept .IDENTIFIER s1) fun identifier s2 =>
      pseq (accept .LEFT_PAR s2) fun _ s3 =>
      pseq (parse_expressions_list fuel s3) fun args s4 =>
      pseq (accept .RIGHT_PAR s4) fun _ s5 =>
      pseq (accept .COLON s5) fun _ s6 =>
      pseq (parse_command fuel s6) fun commands s7 =>
      pseq (parse_command fuel s7) fun _ s8 =>
      pseq (accept .END s8) fun _ s9 =>
      .ok (.funcDeclaration identifier args commands, s9)
    else if (cur s).kind = .IDENTIFIER then
      let p1 := parse_type_denoter s
      let p2 := parse_identifier p1.2
      if (cur p2.2).kind = .OPERATOR then
        pseq (parse_operator p2.2) fun operator s3 =>
        pseq (parse_expression fuel s3) fun expression s4 =>
        .ok (.varDeclarationWithAssignment p1.1 p2.1 operator expression, s4)
      else .ok (.varDeclaration p1.1 p2.1, p2.2)
    else .error (.unsupportedDeclarationToken (cur s) (cur s).line (cur s).col)
termination_by structural fuel s => fuel

/-- `Parser.parse_expression` (src/parser.py lines 139-148): one single
expression, then the operator-chaining loop. -/
def parse_expression : Nat → PState → Except Err (Expression × PState)
  | 0, _ => .error .fuel
  | fuel+1, s =>
    pseq (parse_single_expression fuel s) fun res s1 =>
    parse_expression_loop fuel res s1
termination_by structural fuel s => fuel

/-- The `while` loop of `Parser.parse_expression` (src/parser.py lines
141-147): while the lookahead is an operator, consume it and a following
single expression, left-folding into `BinaryExpression` nodes. -/
def parse_expression_loop : Nat → Expression → PState → Except Err (Expression × PState)
  | 0, _, _ => .error .fuel
  | fuel+1, res, s =>
    if (cur s).kind = .OPERATOR then
      pseq (parse_operator s) fun operator s1 =>
      pseq (parse_single_expression fuel s1) fun tmp s2 =>
      parse_expression_loop fuel (.binaryExpression operator res tmp) s2
    else .ok (res, s)
termination_by structural fuel res s => fuel

/-- `Parser.parse_single_expression` (src/parser.py lines 150-190).  Note
the boolean-literal branch calls `parse_identifier` (line 156), which
returns `None` without consuming because the kind is not
`K.IDENTIFIER`; and the identifier-operator branch (lines 173-181) calls
the full chaining production `parse_expression` for the right-hand
side. -/
def parse_single_expression : Nat → PState → Except Err (Expression × PState)
  | 0, _ => .error .fuel
  | fuel+1, s =>
    if (cur s).kind = .INTEGER_LITERAL then
      let p := parse_integer_literal s
      .ok (.intLiteralExpression p.1, p.2)
    else if (cur s).kind = .BOOLEAN_LITERAL then
      let p := parse_identifier s
      .ok (.booleanLiteralExpression p.1, p.2)
    else if (cur s).kind = .OPERATOR then
      pseq (parse_operator s) fun operator s1 =>
      pseq (parse_single_expression fuel s1) fun expression s2 =>
      .ok (.unaryExpression operator expression, s2)
    else if (cur s).kind = .IDENTIFIER then
      let p := parse_identifier s
      if (cur p.2).kind = .LEFT_PAR then
        pseq (accept .LEFT_PAR p.2) fun _ s2 =>
        pseq (parse_expressions_list fuel s2) fun el s3 =>
        pseq (accept .RIGHT_PAR s3) fun _ s4 =>
        .ok (.callExpression p.1 el, s4)
      else if (cur p.2).kind = .OPERATOR then
        pseq (parse_operator p.2) fun operator s2 =>
        pseq (parse_expression fuel s2) fun expression s3 =>
        .ok (.binaryExpression operator (.varExpression p.1) expression, s3)
      else .ok (.varExpression p.1, p.2)
    else .error (.unsupportedExpressionToken (cur s) (cur s).line (cur s).col)
termination_by structural fuel s => fuel

/-- `Parser.parse_expressions_list` (src/parser.py lines 192-200): when
the lookahead cannot start an expression, fall through returning Python
`None` without consuming; otherwise parse one expression and run the
comma loop. -/
def parse_expressions_list : Nat → PState → Except Err (Option ExpressionsList × PState)
  | 0, _ => .error .fuel
  | fuel+1, s =>
    if isExprStarter (cur s).kind then
      pseq (parse_expression fuel s) fun e s1 =>
      pseq (parse_expressions_list_loop fuel [e] s1) fun el s2 =>
      .ok (some el, s2)
    else .ok (none, s)
termination_by structural fuel s => fuel

/-- The `while` loop of `Parser.parse_expressions_list` (src/parser.py
lines 197-199): while the lookahead is a comma, consume it and append
another expression. -/
def parse_expressions_list_loop : Nat → List Expression → PState → Except Err (ExpressionsList × PState)
  | 0, _, _ => .error .fuel
  | fuel+1, acc, s =>
    if (cur s).kind = .COMMA then
      pseq (accept .COMMA s) fun _ s1 =>
      pseq (parse_expression fuel s1) fun e s2 =>
      parse_expressions_list_loop fuel (acc ++ [e]) s2
    else .ok (⟨acc⟩, s)
termination_by structural fuel acc s => fuel

end

/-- `Parser.parse_program` (src/parser.py lines 16-22): parse one command
sequence, then require the lookahead to be the end-of-input terminal. -/
def parse_program (fuel : Nat) (s : PState) : Except Err Program :=
  pseq (parse_command fuel s) fun command s1 =>
  if (cur s1).kind ≠ .EOT then .error (.unexpectedEndOfProgram (cur s1))
  else .ok ⟨command⟩

/-- The loop condition of `parse_declaration` as the spec sentence states
it.  Modelled from the spec: "continuing while lookahead is the
function-keyword or an identifier spelled as a reserved type name" — the
spelling test applies only to identifier-kind terminals. -/
def declLoopCondSpec (t : Terminal) : Bool :=
  t.kind == .FUNC || (t.kind == .IDENTIFIER && isTypeName t.spelling)

/-- Variant of `parse_single_declaration` with the second `parse_command`
call of the func-branch (src/parser.py line 108) removed; everything else
is verbatim the same. -/
def parse_single_declaration_variant : Nat → PState → Except Err (SingleDeclaration × PState)
  | 0, _ => .error .fuel
  | fuel+1, s =>
    if (cur s).kind = .FUNC then
      pseq (accept .FUNC s) fun _ s1 =>
      pseq (accept .IDENTIFIER s1) fun identifier s2 =>
      pseq (accept .LEFT_PAR s2) fun _ s3 =>
      pseq (parse_expressions_list fuel s3) fun args s4 =>
      pseq (accept .RIGHT_PAR s4) fun _ s5 =>
      pseq (accept .COLON s5) fun _ s6 =>
      pseq (parse_command fuel s6) fun commands s7 =>
      pseq (accept .END s7) fun _ s9 =>
      .ok (.funcDeclaration identifier args commands, s9)
    else if (cur s).kind = .IDENTIFIER then
      let p1 := parse_type_denoter s
      let p2 := parse_identifier p1.2
      if (cur p2.2).kind = .OPERATOR then
        pseq (parse_operator p2.2) fun operator s3 =>
        pseq (parse_expression fuel s3) fun expression s4 =>
        .ok (.varDeclarationWithAssignment p1.1 p2.1 operator expression, s4)
      else .ok (.varDeclaration p1.1 p2.1, p2.2)
    else .error (.unsupportedDeclarationToken (cur s) (cur s).line (cur s).col)

/-- The terminal stream of `if (x) : y; end`. -/
def ifNoElseToks : PState :=
  [⟨.IF, "if", 1, 1⟩, ⟨.LEFT_PAR, "(", 1, 4⟩, ⟨.IDENTIFIER, "x", 1, 5⟩,
   ⟨.RIGHT_PAR, ")", 1, 6⟩, ⟨.COLON, ":", 1, 8⟩, ⟨.IDENTIFIER, "y", 1, 10⟩,
   ⟨.SEMICOLON, ";", 1, 11⟩, ⟨.END, "end", 1, 13⟩, ⟨.EOT, "", 1, 16⟩]

/-- The terminal stream of `func add(a, b): return a + b; end`. -/
def funcAddToks : PState :=
  [⟨.FUNC, "func", 1, 1⟩, ⟨.IDENTIFIER, "add", 1, 6⟩, ⟨.LEFT_PAR, "(", 1, 9⟩,
   ⟨.IDENTIFIER, "a", 1, 10⟩, ⟨.COMMA, ",", 1, 11⟩, ⟨.IDENTIFIER, "b", 1, 13⟩,
   ⟨.RIGHT_PAR, ")", 1, 14⟩, ⟨.COLON, ":", 1, 15⟩, ⟨.RETURN, "return", 1, 17⟩,
   ⟨.IDENTIFIER, "a", 1, 24⟩, ⟨.OPERATOR, "+", 1, 26⟩, ⟨.IDENTIFIER, "b", 1, 28⟩,
   ⟨.SEMICOLON, ";", 1, 29⟩, ⟨.END, "end", 1, 31⟩, ⟨.EOT, "", 1, 34⟩]

/-- The terminal stream of `func add(a, b): return a + b end` (no
statement terminator after the return statement). -/
def funcAddNoSemiToks : PState :=
  [⟨.FUNC, "func", 1, 1⟩, ⟨.IDENTIFIER, "add", 1, 6⟩, ⟨.LEFT_PAR, "(", 1, 9⟩,
   ⟨.IDENTIFIER, "a", 1, 10⟩, ⟨.COMMA, ",", 1, 11⟩, ⟨.IDENTIFIER, "b", 1, 13⟩,
   ⟨.RIGHT_PAR, ")", 1, 14⟩, ⟨.COLON, ":", 1, 15⟩, ⟨.RETURN, "return", 1, 17⟩,
   ⟨.IDENTIFIER, "a", 1, 24⟩, ⟨.OPERATOR, "+", 1, 26⟩, ⟨.IDENTIFIER, "b", 1, 28⟩,
   ⟨.END, "end", 1, 30⟩, ⟨.EOT, "", 1, 33⟩]

/-! ### Helper lemmas about the parsing primitives.

The development below culminates in `parse_settles`: with fuel at least
linear in the remaining stream length, no parsing procedure ever runs out
of fuel, i.e. the fuel is an artifact of the embedding and the Python
parser terminates on every terminal stream. -/

theorem pseq_ok {α γ : Type} {x : Except Err (α × PState)} {F : α → PState → Except Err γ}
    {r : γ} :
    pseq x F = .ok r ↔ ∃ a s, x = .ok (a, s) ∧ F a s = .ok r := by
  cases x with
  | error e => simp [pseq]
  | ok v =>
    obtain ⟨a, b⟩ := v
    simp only [pseq, Except.ok.injEq, Prod.mk.injEq]
    constructor
    · intro h
      exact ⟨a, b, ⟨rfl, rfl⟩, h⟩
    · rintro ⟨a1, b1, ⟨rfl, rfl⟩, h⟩
      exact h

theorem pseq_error {α γ : Type} {x : Except Err (α × PState)} {F : α → PState → Except Err γ}
    {e0 : Err} :
    pseq x F = .error e0 ↔ x = .error e0 ∨ ∃ a s, x = .ok (a, s) ∧ F a s = .error e0 := by
  cases x with
  | error e => simp [pseq]
  | ok v =>
    obtain ⟨a, b⟩ := v
    simp only [pseq, Except.ok.injEq, Prod.mk.injEq]
    constructor
    · intro h
      exact Or.inr ⟨a, b, ⟨rfl, rfl⟩, h⟩
    · rintro (h | ⟨a1, b1, ⟨rfl, rfl⟩, h⟩)
      · exact absurd h (by simp)
      · exact h

theorem pseq_of_ok {α γ : Type} {x : Except Err (α × PState)} {F : α → PState → Except Err γ}
    {a : α} {s1 : PState} (h : x = .ok (a, s1)) : pseq x F = F a s1 := by
  rw [h, pseq]

theorem pseq_of_error {α γ : Type} {x : Except Err (α × PState)}
    {F : α → PState → Except Err γ} {e0 : Err} (h : x = .error e0) : pseq x F = .error e0 := by
  rw [h, pseq]

theorem adv_length_le (s : PState) : (adv s).length ≤ s.length := by
  cases s <;> simp [adv]

theorem adv_length_lt {s : PState} (h : (cur s).kind ≠ .EOT) : (adv s).length < s.length := by
  cases s with
  | nil => exact absurd rfl h
  | cons t ts => simp [adv]

theorem accept_eq_ok {k : Kind} {s : PState} (h : (cur s).kind = k) :
    accept k s = .ok (true, adv s) := by
  simp [accept, h]

theorem accept_eq_error {k : Kind} {s : PState} (h : ¬(cur s).kind = k) :
    accept k s = .error (.unexpectedToken k (cur s) (cur s).line (cur s).col) := by
  simp [accept, h]

theorem accept_ok_dest {k : Kind} {s : PState} {b : Bool} {s1 : PState}
    (h : accept k s = .ok (b, s1)) : (cur s).kind = k ∧ s1 = adv s := by
  unfold accept at h
  split_ifs at h with hk
  simp only [Except.ok.injEq, Prod.mk.injEq] at h
  exact ⟨hk, h.2.symm⟩

theorem accept_ok_le {k : Kind} {s : PState} {b : Bool} {s1 : PState}
    (h : accept k s = .ok (b, s1)) : s1.length ≤ s.length := by
  obtain ⟨-, h2⟩ := accept_ok_dest h
  rw [h2]
  exact adv_length_le s

theorem accept_ok_lt {k : Kind} {s : PState} {b : Bool} {s1 : PState}
    (h : accept k s = .ok (b, s1)) (hk : k ≠ .EOT) : s1.length < s.length := by
  obtain ⟨h1, h2⟩ := accept_ok_dest h
  rw [h2]
  exact adv_length_lt (by rw [h1]; exact hk)

theorem accept_ne_fuel (k : Kind) (s : PState) : accept k s ≠ .error .fuel := by
  unfold accept
  split_ifs <;> simp

theorem parse_operator_eq_ok {s : PState} (h : (cur s).kind = .OPERATOR) :
    parse_operator s = .ok (⟨(cur s).spelling⟩, adv s) := by
  simp [parse_operator, h]

theorem parse_operator_eq_error {s : PState} (h : ¬(cur s).kind = .OPERATOR) :
    parse_operator s = .error (.unexpectedToken .OPERATOR (cur s) (cur s).line (cur s).col) := by
  simp [parse_operator, h]

theorem parse_operator_ok_dest {s : PState} {op : Operator} {s1 : PState}
    (h : parse_operator s = .ok (op, s1)) : (cur s).kind = .OPERATOR ∧ s1 = adv s := by
  unfold parse_operator at h
  split_ifs at h with hk
  simp only [Except.ok.injEq, Prod.mk.injEq] at h
  exact ⟨hk, h.2.symm⟩

theorem parse_operator_ok_lt {s : PState} {op : Operator} {s1 : PState}
    (h : parse_operator s = .ok (op, s1)) : s1.length < s.length := by
  obtain ⟨h1, h2⟩ := parse_operator_ok_dest h
  rw [h2]
  exact adv_length_lt (by rw [h1]; exact (by decide))

theorem parse_operator_ne_fuel (s : PState) : parse_operator s ≠ .error .fuel := by
  unfold parse_operator
  split_ifs <;> simp

theorem parse_identifier_eq_of_kind {s : PState} (h : (cur s).kind = .IDENTIFIER) :
    parse_identifier s = (some ⟨(cur s).spelling⟩, adv s) := by
  simp [parse_identifier, h]

theorem parse_identifier_eq_of_ne {s : PState} (h : ¬(cur s).kind = .IDENTIFIER) :
    parse_identifier s = (none, s) := by
  simp [parse_identifier, h]

theorem parse_identifier_snd_le (s : PState) : (parse_identifier s).2.length ≤ s.length := by
  unfold parse_identifier
  split_ifs <;> simp [adv_length_le]

theorem parse_integer_literal_eq_of_kind {s : PState} (h : (cur s).kind = .INTEGER_LITERAL) :
    parse_integer_literal s = (some ⟨(cur s).spelling⟩, adv s) := by
  simp [parse_integer_literal, h]

theorem parse_integer_literal_eq_of_ne {s : PState} (h : ¬(cur s).kind = .INTEGER_LITERAL) :
    parse_integer_literal s = (none, s) := by
  simp [parse_integer_literal, h]

theorem parse_type_denoter_snd (s : PState) :
    (parse_type_denoter s).2 = (parse_identifier s).2 := rfl

theorem isStatementKeyword_iff (k : Kind) :
    isStatementKeyword k = true ↔ k = .RETURN ∨ k = .IF ∨ k = .WHILE := by
  cases k <;> decide

/-! ### The parsing procedures never grow the stream, and consume
strictly under their dispatch conditions -/

theorem parse_consumes : ∀ fuel : Nat,
    (∀ s c s1, parse_command fuel s = .ok (c, s1) → s1.length ≤ s.length) ∧
    (∀ s c s1, parse_single_command fuel s = .ok (c, s1) → s1.length < s.length) ∧
    (∀ s st s1, parse_single_statement fuel s = .ok (st, s1) →
      s1.length ≤ s.length ∧
      (((cur s).kind = .IF ∨ (cur s).kind = .WHILE ∨ (cur s).kind = .RETURN ∨
        (cur s).kind = .IDENTIFIER) → s1.length < s.length)) ∧
    (∀ s d s1, parse_declaration fuel s = .ok (d, s1) →
      s1.length ≤ s.length ∧ (declLoopCond (cur s) = true → s1.length < s.length)) ∧
    (∀ s d s1, parse_single_declaration fuel s = .ok (d, s1) → s1.length < s.length) ∧
    (∀ s e s1, parse_expression fuel s = .ok (e, s1) →
      s1.length ≤ s.length ∧
      (((cur s).kind = .IDENTIFIER ∨ (cur s).kind = .INTEGER_LITERAL ∨
        (cur s).kind = .OPERATOR) → s1.length < s.length)) ∧
    (∀ acc s e s1, parse_expression_loop fuel acc s = .ok (e, s1) → s1.length ≤ s.length) ∧
    (∀ s e s1, parse_single_expression fuel s = .ok (e, s1) →
      s1.length ≤ s.length ∧
      (((cur s).kind = .IDENTIFIER ∨ (cur s).kind = .INTEGER_LITERAL ∨
        (cur s).kind = .OPERATOR) → s1.length < s.length)) ∧
    (∀ s el s1, parse_expressions_list fuel s = .ok (el, s1) → s1.length ≤ s.length) ∧
    (∀ acc s el s1, parse_expressions_list_loop fuel acc s = .ok (el, s1) →
      s1.length ≤ s.length) := by
  intro fuel
  induction fuel with
  | zero =>
    refine ⟨?_, ?_, ?_, ?_, ?_, ?_, ?_, ?_, ?_, ?_⟩
    · intro s c s1 h
      simp [parse_command] at h
    · intro s c s1 h
      simp [parse_single_command] at h
    · intro s st s1 h
      simp [parse_single_statement] at h
    · intro s d s1 h
      simp [parse_declaration] at h
    · intro s d s1 h
      simp [parse_single_declaration] at h
    · intro s e s1 h
      simp [parse_expression] at h
    · intro acc s e s1 h
      simp [parse_expression_loop] at h
    · intro s e s1 h
      simp [parse_single_expression] at h
    · intro s el s1 h
      simp [parse_expressions_list] at h
    · intro acc s el s1 h
      simp [parse_expressions_list_loop] at h
  | succ fuel ih =>
    obtain ⟨ihC, ihSC, ihSS, ihD, ihSD, ihE, ihEL, ihSE, ihXL, ihXLL⟩ := ih
    refine ⟨?_, ?_, ?_, ?_, ?_, ?_, ?_, ?_, ?_, ?_⟩
    · -- parse_command
      intro s c s1 h
      simp only [parse_command] at h
      split_ifs at h with h1
      · rw [pseq_ok] at h
        obtain ⟨sc, t1, hsc, h⟩ := h
        rw [pseq_ok] at h
        obtain ⟨cmd, t2, hcmd, hres⟩ := h
        simp only [Except.ok.injEq, Prod.mk.injEq] at hres
        obtain ⟨-, hs⟩ := hres
        subst hs
        have l1 := ihSC s sc t1 hsc
        have l2 := ihC _ _ _ hcmd
        omega
      · simp only [Except.ok.injEq, Prod.mk.injEq] at h
        obtain ⟨-, hs⟩ := h
        subst hs
        exact le_rfl
    · -- parse_single_command
      intro s c s1 h
      simp only [parse_single_command] at h
      split_ifs at h with h1 h2 h3 h4
      · rw [pseq_ok] at h
        obtain ⟨d, t1, hd, hres⟩ := h
        simp only [Except.ok.injEq, Prod.mk.injEq] at hres
        obtain ⟨-, hs⟩ := hres
        subst hs
        exact (ihD _ _ _ hd).2 (by simp [declLoopCond, h1])
      · rw [pseq_ok] at h
        obtain ⟨st, t1, hst, hres⟩ := h
        simp only [Except.ok.injEq, Prod.mk.injEq] at hres
        obtain ⟨-, hs⟩ := hres
        subst hs
        have hk := (isStatementKeyword_iff (cur s).kind).1 h2
        refine (ihSS _ _ _ hst).2 ?_
        rcases hk with hk | hk | hk
        · exact Or.inr (Or.inr (Or.inl hk))
        · exact Or.inl hk
        · exact Or.inr (Or.inl hk)
      · rw [pseq_ok] at h
        obtain ⟨d, t1, hd, h⟩ := h
        rw [pseq_ok] at h
        obtain ⟨b2, t2, hsemi, hres⟩ := h
        simp only [Except.ok.injEq, Prod.mk.injEq] at hres
        obtain ⟨-, hs⟩ := hres
        subst hs
        have l1 := (ihD s d t1 hd).2 (by simp [declLoopCond, h4])
        have l2 := accept_ok_le hsemi
        omega
      · rw [pseq_ok] at h
        obtain ⟨st, t1, hst, h⟩ := h
        rw [pseq_ok] at h
        obtain ⟨b2, t2, hsemi, hres⟩ := h
        simp only [Except.ok.injEq, Prod.mk.injEq] at hres
        obtain ⟨-, hs⟩ := hres
        subst hs
        have l1 := (ihSS s st t1 hst).2 (Or.inr (Or.inr (Or.inr h3)))
        have l2 := accept_ok_le hsemi
        omega
    · -- parse_single_statement
      intro s st s1 h
      simp only [parse_single_statement] at h
      split_ifs at h with h1 h2 h3 h4
      · -- if-statement
        rw [pseq_ok] at h
        obtain ⟨b1, t1, hIF, h⟩ := h
        rw [pseq_ok] at h
        obtain ⟨b2, t2, hLP, h⟩ := h
        rw [pseq_ok] at h
        obtain ⟨e3, t3, hE, h⟩ := h
        rw [pseq_ok] at h
        obtain ⟨b4, t4, hRP, h⟩ := h
        rw [pseq_ok] at h
        obtain ⟨b5, t5, hCO, h⟩ := h
        rw [pseq_ok] at h
        obtain ⟨ifB, t6, hC1, h⟩ := h
        have l1 := accept_ok_lt hIF (by decide)
        have l2 := accept_ok_le hLP
        have l3 := (ihE t2 e3 t3 hE).1
        have l4 := accept_ok_le hRP
        have l5 := accept_ok_le hCO
        have l6 := ihC t5 ifB t6 hC1
        split_ifs at h with h5
        · rw [pseq_ok] at h
          obtain ⟨b7, t7, hEL2, h⟩ := h
          rw [pseq_ok] at h
          obtain ⟨b8, t8, hCO2, h⟩ := h
          rw [pseq_ok] at h
          obtain ⟨eB, t9, hC2, h⟩ := h
          rw [pseq_ok] at h
          obtain ⟨b10, t10, hEND, hres⟩ := h
          simp only [Except.ok.injEq, Prod.mk.injEq] at hres
          obtain ⟨-, hs⟩ := hres
          subst hs
          have l7 := accept_ok_le hEL2
          have l8 := accept_ok_le hCO2
          have l9 := ihC t8 eB t9 hC2
          have l10 := accept_ok_le hEND
          exact ⟨by omega, fun _ => by omega⟩
        · rw [pseq_ok] at h
          obtain ⟨b7, t7, hEND, hbad⟩ := h
          exact absurd hbad (by simp)
      · -- while-statement
        rw [pseq_ok] at h
        obtain ⟨b1, t1, hWH, h⟩ := h
        rw [pseq_ok] at h
        obtain ⟨b2, t2, hLP, h⟩ := h
        rw [pseq_ok] at h
        obtain ⟨e3, t3, hE, h⟩ := h
        rw [pseq_ok] at h
        obtain ⟨b4, t4, hRP, h⟩ := h
        rw [pseq_ok] at h
        obtain ⟨b5, t5, hCO, h⟩ := h
        rw [pseq_ok] at h
        obtain ⟨cm, t6, hC1, h⟩ := h
        rw [pseq_ok] at h
        obtain ⟨b7, t7, hEND, hres⟩ := h
        simp only [Except.ok.injEq, Prod.mk.injEq] at hres
        obtain ⟨-, hs⟩ := hres
        subst hs
        have l1 := accept_ok_lt hWH (by decide)
        have l2 := accept_ok_le hLP
        have l3 := (ihE t2 e3 t3 hE).1
        have l4 := accept_ok_le hRP
        have l5 := accept_ok_le hCO
        have l6 := ihC t5 cm t6 hC1
        have l7 := accept_ok_le hEND
        exact ⟨by omega, fun _ => by omega⟩
      · -- return-statement
        rw [pseq_ok] at h
        obtain ⟨b1, t1, hRET, h⟩ := h
        rw [pseq_ok] at h
        obtain ⟨e2, t2, hse, hres⟩ := h
        simp only [Except.ok.injEq, Prod.mk.injEq] at hres
        obtain ⟨-, hs⟩ := hres
        subst hs
        have l1 := accept_ok_lt hRET (by decide)
        have l2 := (ihSE t1 e2 t2 hse).1
        exact ⟨by omega, fun _ => by omega⟩
      · -- expression statement
        rw [pseq_ok] at h
        obtain ⟨e1, t1, hE, hres⟩ := h
        simp only [Except.ok.injEq, Prod.mk.injEq] at hres
        obtain ⟨-, hs⟩ := hres
        subst hs
        have l1 := (ihE _ _ _ hE).2 (Or.inl h4)
        exact ⟨by omega, fun _ => by omega⟩
      · -- fall-through: Python returns None
        simp only [Except.ok.injEq, Prod.mk.injEq] at h
        obtain ⟨-, hs⟩ := h
        subst hs
        refine ⟨le_rfl, fun hk => ?_⟩
        rcases hk with hk | hk | hk | hk
        · exact absurd hk h1
        · exact absurd hk h2
        · exact absurd hk h3
        · exact absurd hk h4
    · -- parse_declaration
      intro s d s1 h
      simp only [parse_declaration] at h
      split_ifs at h with h1
      · rw [pseq_ok] at h
        obtain ⟨d1, t1, hd1, h⟩ := h
        rw [pseq_ok] at h
        obtain ⟨dc, t2, hdc, hres⟩ := h
        simp only [Except.ok.injEq, Prod.mk.injEq] at hres
        obtain ⟨-, hs⟩ := hres
        subst hs
        have l1 := ihSD s d1 t1 hd1
        have l2 := (ihD _ _ _ hdc).1
        exact ⟨by omega, fun _ => by omega⟩
      · simp only [Except.ok.injEq, Prod.mk.injEq] at h
        obtain ⟨-, hs⟩ := h
        subst hs
        exact ⟨le_rfl, fun hc => absurd hc h1⟩
    · -- parse_single_declaration
      intro s d s1 h
      simp only [parse_single_declaration] at h
      split_ifs at h with h1 h2 h3
      · -- func declaration
        rw [pseq_ok] at h
        obtain ⟨b1, t1, hF, h⟩ := h
        rw [pseq_ok] at h
        obtain ⟨i2, t2, hID, h⟩ := h
        rw [pseq_ok] at h
        obtain ⟨b3, t3, hLP, h⟩ := h
        rw [pseq_ok] at h
        obtain ⟨ar, t4, hXLc, h⟩ := h
        rw [pseq_ok] at h
        obtain ⟨b5, t5, hRP, h⟩ := h
        rw [pseq_ok] at h
        obtain ⟨b6, t6, hCO, h⟩ := h
        rw [pseq_ok] at h
        obtain ⟨cm, t7, hC1, h⟩ := h
        rw [pseq_ok] at h
        obtain ⟨c2, t8, hC2, h⟩ := h
        rw [pseq_ok] at h
        obtain ⟨b9, t9, hEND, hres⟩ := h
        simp only [Except.ok.injEq, Prod.mk.injEq] at hres
        obtain ⟨-, hs⟩ := hres
        subst hs
        have l1 := accept_ok_lt hF (by decide)
        have l2 := accept_ok_le hID
        have l3 := accept_ok_le hLP
        have l4 := ihXL t3 ar t4 hXLc
        have l5 := accept_ok_le hRP
        have l6 := accept_ok_le hCO
        have l7 := ihC t6 cm t7 hC1
        have l8 := ihC t7 c2 t8 hC2
        have l9 := accept_ok_le hEND
        omega
      · -- variable declaration with initializer
        rw [pseq_ok] at h
        obtain ⟨op, t3, hop, h⟩ := h
        rw [pseq_ok] at h
        obtain ⟨e4, t4, hE, hres⟩ := h
        simp only [Except.ok.injEq, Prod.mk.injEq] at hres
        obtain ⟨-, hs⟩ := hres
        subst hs
        have e1 : (parse_type_denoter s).2 = adv s := by
          rw [parse_type_denoter_snd, parse_identifier_eq_of_kind h2]
        rw [e1] at hop
        have l0 := adv_length_lt (s := s) (by simp [h2])
        have l1 := parse_identifier_snd_le (adv s)
        have l2 := parse_operator_ok_lt hop
        have l3 := (ihE _ _ _ hE).1
        omega
      · -- variable declaration without initializer
        simp only [Except.ok.injEq, Prod.mk.injEq] at h
        obtain ⟨-, hs⟩ := h
        subst hs
        have e1 : (parse_type_denoter s).2 = adv s := by
          rw [parse_type_denoter_snd, parse_identifier_eq_of_kind h2]
        rw [e1]
        have l0 := adv_length_lt (s := s) (by simp [h2])
        have l1 := parse_identifier_snd_le (adv s)
        omega
    · -- parse_expression
      intro s e s1 h
      simp only [parse_expression] at h
      rw [pseq_ok] at h
      obtain ⟨res, t1, hse, hloop⟩ := h
      have l1 := ihSE s res t1 hse
      have l2 := ihEL _ _ _ _ hloop
      exact ⟨by have := l1.1; omega, fun hk => by have := l1.2 hk; omega⟩
    · -- parse_expression_loop
      intro acc s e s1 h
      simp only [parse_expression_loop] at h
      split_ifs at h with h1
      · rw [pseq_ok] at h
        obtain ⟨op, t1, hop, h⟩ := h
        rw [pseq_ok] at h
        obtain ⟨tmp, t2, hse, hloop⟩ := h
        have l1 := parse_operator_ok_lt hop
        have l2 := (ihSE t1 tmp t2 hse).1
        have l3 := ihEL _ _ _ _ hloop
        omega
      · simp only [Except.ok.injEq, Prod.mk.injEq] at h
        obtain ⟨-, hs⟩ := h
        subst hs
        exact le_rfl
    · -- parse_single_expression
      intro s e s1 h
      simp only [parse_single_expression] at h
      split_ifs at h with h1 h2 h3 h4 h5 h6
      · simp only [Except.ok.injEq, Prod.mk.injEq] at h
        obtain ⟨-, hs⟩ := h
        have hx : (parse_integer_literal s).2 = adv s := by
          rw [parse_integer_literal_eq_of_kind h1]
        rw [hx] at hs
        have l1 := adv_length_lt (s := s) (by simp [h1])
        subst hs
        exact ⟨by omega, fun _ => by omega⟩
      · simp only [Except.ok.injEq, Prod.mk.injEq] at h
        obtain ⟨-, hs⟩ := h
        have hx : (parse_identifier s).2 = s := by
          rw [parse_identifier_eq_of_ne (by simp [h2])]
        rw [hx] at hs
        subst hs
        refine ⟨le_rfl, fun hk => ?_⟩
        rcases hk with hk | hk | hk <;> rw [h2] at hk <;> exact absurd hk (by decide)
      · rw [pseq_ok] at h
        obtain ⟨op, t1, hop, h⟩ := h
        rw [pseq_ok] at h
        obtain ⟨e2, t2, hse, hres⟩ := h
        simp only [Except.ok.injEq, Prod.mk.injEq] at hres
        obtain ⟨-, hs⟩ := hres
        subst hs
        have l1 := parse_operator_ok_lt hop
        have l2 := (ihSE t1 e2 t2 hse).1
        exact ⟨by omega, fun _ => by omega⟩
      · -- identifier followed by a left parenthesis: call expression
        rw [pseq_ok] at h
        obtain ⟨b2, t2, hLP, h⟩ := h
        rw [pseq_ok] at h
        obtain ⟨el, t3, hXLc, h⟩ := h
        rw [pseq_ok] at h
        obtain ⟨b4, t4, hRP, hres⟩ := h
        simp only [Except.ok.injEq, Prod.mk.injEq] at hres
        obtain ⟨-, hs⟩ := hres
        subst hs
        have l0 : (parse_identifier s).2 = adv s := by
          rw [parse_identifier_eq_of_kind h4]
        rw [l0] at hLP
        have l1 := adv_length_lt (s := s) (by simp [h4])
        have l2 := accept_ok_le hLP
        have l3 := ihXL t2 el t3 hXLc
        have l4 := accept_ok_le hRP
        exact ⟨by omega, fun _ => by omega⟩
      · -- identifier followed by an operator: right-chained binary expression
        rw [pseq_ok] at h
        obtain ⟨op, t2, hop, h⟩ := h
        rw [pseq_ok] at h
        obtain ⟨e3, t3, hE, hres⟩ := h
        simp only [Except.ok.injEq, Prod.mk.injEq] at hres
        obtain ⟨-, hs⟩ := hres
        subst hs
        have l0 : (parse_identifier s).2 = adv s := by
          rw [parse_identifier_eq_of_kind h4]
        rw [l0] at hop
        have l1 := adv_length_lt (s := s) (by simp [h4])
        have l2 := parse_operator_ok_lt hop
        have l3 := (ihE t2 e3 t3 hE).1
        exact ⟨by omega, fun _ => by omega⟩
      · -- plain variable expression
        simp only [Except.ok.injEq, Prod.mk.injEq] at h
        obtain ⟨-, hs⟩ := h
        have l0 : (parse_identifier s).2 = adv s := by
          rw [parse_identifier_eq_of_kind h4]
        rw [l0] at hs
        subst hs
        have l1 := adv_length_lt (s := s) (by simp [h4])
        exact ⟨by omega, fun _ => by omega⟩
    · -- parse_expressions_list
      intro s el s1 h
      simp only [parse_expressions_list] at h
      split_ifs at h with h1
      · rw [pseq_ok] at h
        obtain ⟨e1, t1, hE, h⟩ := h
        rw [pseq_ok] at h
        obtain ⟨el2, t2, hloop, hres⟩ := h
        simp only [Except.ok.injEq, Prod.mk.injEq] at hres
        obtain ⟨-, hs⟩ := hres
        subst hs
        have l1 := (ihE s e1 t1 hE).1
        have l2 := ihXLL _ _ _ _ hloop
        omega
      · simp only [Except.ok.injEq, Prod.mk.injEq] at h
        obtain ⟨-, hs⟩ := h
        subst hs
        exact le_rfl
    · -- parse_expressions_list_loop
      intro acc s el s1 h
      simp only [parse_expressions_list_loop] at h
      split_ifs at h with h1
      · rw [pseq_ok] at h
        obtain ⟨b1, t1, hcomma, h⟩ := h
        rw [pseq_ok] at h
        obtain ⟨e2, t2, hE, hloop⟩ := h
        have l1 := accept_ok_lt hcomma (by decide)
        have l2 := (ihE t1 e2 t2 hE).1
        have l3 := ihXLL _ _ _ _ hloop
        omega
      · simp only [Except.ok.injEq, Prod.mk.injEq] at h
        obtain ⟨-, hs⟩ := h
        subst hs
        exact le_rfl

/-! ### Fuel sufficiency: with fuel linear in the stream length, no
parsing procedure runs out of fuel -/

theorem parse_settles : ∀ n : Nat,
    (∀ s f, s.length ≤ n → 8*n+2 ≤ f → parse_single_expression f s ≠ .error .fuel) ∧
    (∀ acc s f, s.length ≤ n → 8*n+3 ≤ f → parse_expression_loop f acc s ≠ .error .fuel) ∧
    (∀ s f, s.length ≤ n → 8*n+4 ≤ f → parse_expression f s ≠ .error .fuel) ∧
    (∀ acc s f, s.length ≤ n → 8*n+2 ≤ f →
      parse_expressions_list_loop f acc s ≠ .error .fuel) ∧
    (∀ s f, s.length ≤ n → 8*n+5 ≤ f → parse_expressions_list f s ≠ .error .fuel) ∧
    (∀ s f, s.length ≤ n → 8*n+2 ≤ f → parse_single_declaration f s ≠ .error .fuel) ∧
    (∀ s f, s.length ≤ n → 8*n+3 ≤ f → parse_declaration f s ≠ .error .fuel) ∧
    (∀ s f, s.length ≤ n → 8*n+6 ≤ f → parse_single_statement f s ≠ .error .fuel) ∧
    (∀ s f, s.length ≤ n → 8*n+7 ≤ f → parse_single_command f s ≠ .error .fuel) ∧
    (∀ s f, s.length ≤ n → 8*n+8 ≤ f → parse_command f s ≠ .error .fuel) := by
  intro n
  induction n using Nat.strong_induction_on with
  | _ n ih =>
  have HSE : ∀ s f, s.length ≤ n → 8*n+2 ≤ f →
      parse_single_expression f s ≠ .error .fuel := by
    intro s f hn hf hcon
    obtain ⟨g, rfl⟩ : ∃ g, f = g + 1 := ⟨f - 1, by omega⟩
    simp only [parse_single_expression] at hcon
    split_ifs at hcon with h1 h2 h3 h4 h5 h6
    · -- unary operator expression
      rw [pseq_error] at hcon
      rcases hcon with hbad | ⟨op, t1, hop, hcon⟩
      · exact parse_operator_ne_fuel s hbad
      · rw [pseq_error] at hcon
        rcases hcon with hbad | ⟨e2, t2, hse, hcon⟩
        · have l1 := parse_operator_ok_lt hop
          exact (ih t1.length (by omega)).1 t1 g le_rfl (by omega) hbad
        · exact absurd hcon (by simp)
    · -- call expression
      have l0 : (parse_identifier s).2 = adv s := by
        rw [parse_identifier_eq_of_kind h4]
      rw [l0] at hcon
      have la := adv_length_lt (s := s) (by simp [h4])
      rw [pseq_error] at hcon
      rcases hcon with hbad | ⟨b2, t2, hLP, hcon⟩
      · exact accept_ne_fuel _ _ hbad
      · have l2 := accept_ok_lt hLP (by decide)
        rw [pseq_error] at hcon
        rcases hcon with hbad | ⟨el, t3, hXLc, hcon⟩
        · exact (ih t2.length (by omega)).2.2.2.2.1 t2 g le_rfl (by omega) hbad
        · rw [pseq_error] at hcon
          rcases hcon with hbad | ⟨b4, t4, hRP, hcon⟩
          · exact accept_ne_fuel _ _ hbad
          · exact absurd hcon (by simp)
    · -- identifier-operator: right-chained binary expression
      have l0 : (parse_identifier s).2 = adv s := by
        rw [parse_identifier_eq_of_kind h4]
      rw [l0] at hcon
      have la := adv_length_lt (s := s) (by simp [h4])
      rw [pseq_error] at hcon
      rcases hcon with hbad | ⟨op, t2, hop, hcon⟩
      · exact parse_operator_ne_fuel _ hbad
      · have l2 := parse_operator_ok_lt hop
        rw [pseq_error] at hcon
        rcases hcon with hbad | ⟨e3, t3, hE, hcon⟩
        · exact (ih t2.length (by omega)).2.2.1 t2 g le_rfl (by omega) hbad
        · exact absurd hcon (by simp)
    · exact absurd hcon (by simp)
  have HEL : ∀ acc s f, s.length ≤ n → 8*n+3 ≤ f →
      parse_expression_loop f acc s ≠ .error .fuel := by
    intro acc s f hn hf hcon
    obtain ⟨g, rfl⟩ : ∃ g, f = g + 1 := ⟨f - 1, by omega⟩
    simp only [parse_expression_loop] at hcon
    split_ifs at hcon with h1
    rw [pseq_error] at hcon
    rcases hcon with hbad | ⟨op, t1, hop, hcon⟩
    · exact parse_operator_ne_fuel s hbad
    · have l1 := parse_operator_ok_lt hop
      rw [pseq_error] at hcon
      rcases hcon with hbad | ⟨tmp, t2, hse, hcon⟩
      · exact (ih t1.length (by omega)).1 t1 g le_rfl (by omega) hbad
      · have l2 := (parse_consumes g).2.2.2.2.2.2.2.1 t1 tmp t2 hse
        exact (ih t2.length (by omega)).2.1 _ t2 g le_rfl (by omega) hcon
  have HE : ∀ s f, s.length ≤ n → 8*n+4 ≤ f → parse_expression f s ≠ .error .fuel := by
    intro s f hn hf hcon
    obtain ⟨g, rfl⟩ : ∃ g, f = g + 1 := ⟨f - 1, by omega⟩
    simp only [parse_expression] at hcon
    rw [pseq_error] at hcon
    rcases hcon with hbad | ⟨res, t1, hse, hcon⟩
    · exact HSE s g (by omega) (by omega) hbad
    · have l1 := ((parse_consumes g).2.2.2.2.2.2.2.1 s res t1 hse).1
      exact HEL res t1 g (by omega) (by omega) hcon
  have HXLL : ∀ acc s f, s.length ≤ n → 8*n+2 ≤ f →
      parse_expressions_list_loop f acc s ≠ .error .fuel := by
    intro acc s f hn hf hcon
    obtain ⟨g, rfl⟩ : ∃ g, f = g + 1 := ⟨f - 1, by omega⟩
    simp only [parse_expressions_list_loop] at hcon
    split_ifs at hcon with h1
    rw [pseq_error] at hcon
    rcases hcon with hbad | ⟨b1, t1, hcomma, hcon⟩
    · exact accept_ne_fuel _ _ hbad
    · have l1 := accept_ok_lt hcomma (by decide)
      rw [pseq_error] at hcon
      rcases hcon with hbad | ⟨e2, t2, hE, hcon⟩
      · exact (ih t1.length (by omega)).2.2.1 t1 g le_rfl (by omega) hbad
      · have l2 := ((parse_consumes g).2.2.2.2.2.1 t1 e2 t2 hE).1
        exact (ih t2.length (by omega)).2.2.2.1 _ t2 g le_rfl (by omega) hcon
  have HXL : ∀ s f, s.length ≤ n → 8*n+5 ≤ f →
      parse_expressions_list f s ≠ .error .fuel := by
    intro s f hn hf hcon
    obtain ⟨g, rfl⟩ : ∃ g, f = g + 1 := ⟨f - 1, by omega⟩
    simp only [parse_expressions_list] at hcon
    split_ifs at hcon with h1
    rw [pseq_error] at hcon
    rcases hcon with hbad | ⟨e1, t1, hE, hcon⟩
    · exact HE s g (by omega) (by omega) hbad
    · have l1 := ((parse_consumes g).2.2.2.2.2.1 s e1 t1 hE).1
      rw [pseq_error] at hcon
      rcases hcon with hbad | ⟨el2, t2, hloop, hcon⟩
      · exact HXLL [e1] t1 g (by omega) (by omega) hbad
      · exact absurd hcon (by simp)
  have HSD : ∀ s f, s.length ≤ n → 8*n+2 ≤ f →
      parse_single_declaration f s ≠ .error .fuel := by
    intro s f hn hf hcon
    obtain ⟨g, rfl⟩ : ∃ g, f = g + 1 := ⟨f - 1, by omega⟩
    simp only [parse_single_declaration] at hcon
    split_ifs at hcon with h1 h2 h3
    · -- func declaration
      rw [pseq_error] at hcon
      rcases hcon with hbad | ⟨b1, t1, hF, hcon⟩
      · exact accept_ne_fuel _ _ hbad
      · have l1 := accept_ok_lt hF (by decide)
        rw [pseq_error] at hcon
        rcases hcon with hbad | ⟨i2, t2, hID, hcon⟩
        · exact accept_ne_fuel _ _ hbad
        · have l2 := accept_ok_le hID
          rw [pseq_error] at hcon
          rcases hcon with hbad | ⟨b3, t3, hLP, hcon⟩
          · exact accept_ne_fuel _ _ hbad
          · have l3 := accept_ok_le hLP
            rw [pseq_error] at hcon
            rcases hcon with hbad | ⟨ar, t4, hXLc, hcon⟩
            · exact (ih t3.length (by omega)).2.2.2.2.1 t3 g le_rfl (by omega) hbad
            · have l4 := (parse_consumes g).2.2.2.2.2.2.2.2.1 t3 ar t4 hXLc
              rw [pseq_error] at hcon
              rcases hcon with hbad | ⟨b5, t5, hRP, hcon⟩
              · exact accept_ne_fuel _ _ hbad
              · have l5 := accept_ok_le hRP
                rw [pseq_error] at hcon
                rcases hcon with hbad | ⟨b6, t6, hCO, hcon⟩
                · exact accept_ne_fuel _ _ hbad
                · have l6 := accept_ok_le hCO
                  rw [pseq_error] at hcon
                  rcases hcon with hbad | ⟨cm, t7, hC1, hcon⟩
                  · exact (ih t6.length (by omega)).2.2.2.2.2.2.2.2.2 t6 g le_rfl
                      (by omega) hbad
                  · have l7 := (parse_consumes g).1 t6 cm t7 hC1
                    rw [pseq_error] at hcon
                    rcases hcon with hbad | ⟨c2, t8, hC2, hcon⟩
                    · exact (ih t7.length (by omega)).2.2.2.2.2.2.2.2.2 t7 g le_rfl
                        (by omega) hbad
                    · rw [pseq_error] at hcon
                      rcases hcon with hbad | ⟨b9, t9, hEND, hcon⟩
                      · exact accept_ne_fuel _ _ hbad
                      · exact absurd hcon (by simp)
    · -- variable declaration with initializer
      have e1 : (parse_type_denoter s).2 = adv s := by
        rw [parse_type_denoter_snd, parse_identifier_eq_of_kind h2]
      rw [e1] at hcon
      have la := adv_length_lt (s := s) (by simp [h2])
      have lb := parse_identifier_snd_le (adv s)
      rw [pseq_error] at hcon
      rcases hcon with hbad | ⟨op, t3, hop, hcon⟩
      · exact parse_operator_ne_fuel _ hbad
      · have l2 := parse_operator_ok_lt hop
        rw [pseq_error] at hcon
        rcases hcon with hbad | ⟨e4, t4, hE, hcon⟩
        · exact (ih t3.length (by omega)).2.2.1 t3 g le_rfl (by omega) hbad
        · exact absurd hcon (by simp)
    · exact absurd hcon (by simp)
  have HD : ∀ s f, s.length ≤ n → 8*n+3 ≤ f → parse_declaration f s ≠ .error .fuel := by
    intro s f hn hf hcon
    obtain ⟨g, rfl⟩ : ∃ g, f = g + 1 := ⟨f - 1, by omega⟩
    simp only [parse_declaration] at hcon
    split_ifs at hcon with h1
    rw [pseq_error] at hcon
    rcases hcon with hbad | ⟨d1, t1, hd1, hcon⟩
    · exact HSD s g (by omega) (by omega) hbad
    · have l1 := (parse_consumes g).2.2.2.2.1 s d1 t1 hd1
      rw [pseq_error] at hcon
      rcases hcon with hbad | ⟨dc, t2, hdc, hcon⟩
      · exact (ih t1.length (by omega)).2.2.2.2.2.2.1 t1 g le_rfl (by omega) hbad
      · exact absurd hcon (by simp)
  have HSS : ∀ s f, s.length ≤ n → 8*n+6 ≤ f →
      parse_single_statement f s ≠ .error .fuel := by
    intro s f hn hf hcon
    obtain ⟨g, rfl⟩ : ∃ g, f = g + 1 := ⟨f - 1, by omega⟩
    simp only [parse_single_statement] at hcon
    split_ifs at hcon with h1 h2 h3 h4
    · -- if-statement
      rw [pseq_error] at hcon
      rcases hcon with hbad | ⟨b1, t1, hIF, hcon⟩
      · exact accept_ne_fuel _ _ hbad
      · have l1 := accept_ok_lt hIF (by decide)
        rw [pseq_error] at hcon
        rcases hcon with hbad | ⟨b2, t2, hLP, hcon⟩
        · exact accept_ne_fuel _ _ hbad
        · have l2 := accept_ok_le hLP
          rw [pseq_error] at hcon
          rcases hcon with hbad | ⟨e3, t3, hE, hcon⟩
          · exact (ih t2.length (by omega)).2.2.1 t2 g le_rfl (by omega) hbad
          · have l3 := ((parse_consumes g).2.2.2.2.2.1 t2 e3 t3 hE).1
            rw [pseq_error] at hcon
            rcases hcon with hbad | ⟨b4, t4, hRP, hcon⟩
            · exact accept_ne_fuel _ _ hbad
            · have l4 := accept_ok_le hRP
              rw [pseq_error] at hcon
              rcases hcon with hbad | ⟨b5, t5, hCO, hcon⟩
              · exact accept_ne_fuel _ _ hbad
              · have l5 := accept_ok_le hCO
                rw [pseq_error] at hcon
                rcases hcon with hbad | ⟨ifB, t6, hC1, hcon⟩
                · exact (ih t5.length (by omega)).2.2.2.2.2.2.2.2.2 t5 g le_rfl
                    (by omega) hbad
                · have l6 := (parse_consumes g).1 t5 ifB t6 hC1
                  split_ifs at hcon with h5
                  · rw [pseq_error] at hcon
                    rcases hcon with hbad | ⟨b7, t7, hEL2, hcon⟩
                    · exact accept_ne_fuel _ _ hbad
                    · have l7 := accept_ok_le hEL2
                      rw [pseq_error] at hcon
                      rcases hcon with hbad | ⟨b8, t8, hCO2, hcon⟩
                      · exact accept_ne_fuel _ _ hbad
                      · have l8 := accept_ok_le hCO2
                        rw [pseq_error] at hcon
                        rcases hcon with hbad | ⟨eB, t9, hC2, hcon⟩
                        · exact (ih t8.length (by omega)).2.2.2.2.2.2.2.2.2 t8 g le_rfl
                            (by omega) hbad
                        · rw [pseq_error] at hcon
                          rcases hcon with hbad | ⟨b10, t10, hEND, hcon⟩
                          · exact accept_ne_fuel _ _ hbad
                          · exact absurd hcon (by simp)
                  · rw [pseq_error] at hcon
                    rcases hcon with hbad | ⟨b7, t7, hEND, hcon⟩
                    · exact accept_ne_fuel _ _ hbad
                    · exact absurd hcon (by simp)
    · -- while-statement
      rw [pseq_error] at hcon
      rcases hcon with hbad | ⟨b1, t1, hWH, hcon⟩
      · exact accept_ne_fuel _ _ hbad
      · have l1 := accept_ok_lt hWH (by decide)
        rw [pseq_error] at hcon
        rcases hcon with hbad | ⟨b2, t2, hLP, hcon⟩
        · exact accept_ne_fuel _ _ hbad
        · have l2 := accept_ok_le hLP
          rw [pseq_error] at hcon
          rcases hcon with hbad | ⟨e3, t3, hE, hcon⟩
          · exact (ih t2.length (by omega)).2.2.1 t2 g le_rfl (by omega) hbad
          · have l3 := ((parse_consumes g).2.2.2.2.2.1 t2 e3 t3 hE).1
            rw [pseq_error] at hcon
            rcases hcon with hbad | ⟨b4, t4, hRP, hcon⟩
            · exact accept_ne_fuel _ _ hbad
            · have l4 := accept_ok_le hRP
              rw [pseq_error] at hcon
              rcases hcon with hbad | ⟨b5, t5, hCO, hcon⟩
              · exact accept_ne_fuel _ _ hbad
              · have l5 := accept_ok_le hCO
                rw [pseq_error] at hcon
                rcases hcon with hbad | ⟨cm, t6, hC1, hcon⟩
                · exact (ih t5.length (by omega)).2.2.2.2.2.2.2.2.2 t5 g le_rfl
                    (by omega) hbad
                · rw [pseq_error] at hcon
                  rcases hcon with hbad | ⟨b7, t7, hEND, hcon⟩
                  · exact accept_ne_fuel _ _ hbad
                  · exact absurd hcon (by simp)
    · -- return-statement
      rw [pseq_error] at hcon
      rcases hcon with hbad | ⟨b1, t1, hRET, hcon⟩
      · exact accept_ne_fuel _ _ hbad
      · have l1 := accept_ok_lt hRET (by decide)
        rw [pseq_error] at hcon
        rcases hcon with hbad | ⟨e2, t2, hse, hcon⟩
        · exact (ih t1.length (by omega)).1 t1 g le_rfl (by omega) hbad
        · exact absurd hcon (by simp)
    · -- expression statement
      rw [pseq_error] at hcon
      rcases hcon with hbad | ⟨e1, t1, hE, hcon⟩
      · exact HE s g (by omega) (by omega) hbad
      · exact absurd hcon (by simp)
  have HSC : ∀ s f, s.length ≤ n → 8*n+7 ≤ f →
      parse_single_command f s ≠ .error .fuel := by
    intro s f hn hf hcon
    obtain ⟨g, rfl⟩ : ∃ g, f = g + 1 := ⟨f - 1, by omega⟩
    simp only [parse_single_command] at hcon
    split_ifs at hcon with h1 h2 h3 h4
    · rw [pseq_error] at hcon
      rcases hcon with hbad | ⟨d, t1, hd, hcon⟩
      · exact HD s g (by omega) (by omega) hbad
      · exact absurd hcon (by simp)
    · rw [pseq_error] at hcon
      rcases hcon with hbad | ⟨st, t1, hst, hcon⟩
      · exact HSS s g (by omega) (by omega) hbad
      · exact absurd hcon (by simp)
    · rw [pseq_error] at hcon
      rcases hcon with hbad | ⟨d, t1, hd, hcon⟩
      · exact HD s g (by omega) (by omega) hbad
      · rw [pseq_error] at hcon
        rcases hcon with hbad | ⟨b2, t2, hsemi, hcon⟩
        · exact accept_ne_fuel _ _ hbad
        · exact absurd hcon (by simp)
    · rw [pseq_error] at hcon
      rcases hcon with hbad | ⟨st, t1, hst, hcon⟩
      · exact HSS s g (by omega) (by omega) hbad
      · rw [pseq_error] at hcon
        rcases hcon with hbad | ⟨b2, t2, hsemi, hcon⟩
        · exact accept_ne_fuel _ _ hbad
        · exact absurd hcon (by simp)
    · exact absurd hcon (by simp)
  have HC : ∀ s f, s.length ≤ n → 8*n+8 ≤ f → parse_command f s ≠ .error .fuel := by
    intro s f hn hf hcon
    obtain ⟨g, rfl⟩ : ∃ g, f = g + 1 := ⟨f - 1, by omega⟩
    simp only [parse_command] at hcon
    split_ifs at hcon with h1
    rw [pseq_error] at hcon
    rcases hcon with hbad | ⟨sc, t1, hsc, hcon⟩
    · exact HSC s g (by omega) (by omega) hbad
    · have l1 := (parse_consumes g).2.1 s sc t1 hsc
      rw [pseq_error] at hcon
      rcases hcon with hbad | ⟨cmd, t2, hcmd, hcon⟩
      · exact (ih t1.length (by omega)).2.2.2.2.2.2.2.2.2 t1 g le_rfl (by omega) hbad
      · exact absurd hcon (by simp)
  exact ⟨HSE, HEL, HE, HXLL, HXL, HSD, HD, HSS, HSC, HC⟩

/-! ### The command-sequence loop stops exactly on non-starters -/

theorem parse_command_post : ∀ f s c s1, parse_command f s = .ok (c, s1) →
    isCommandStarter (cur s1).kind = false := by
  intro f
  induction f with
  | zero =>
    intro s c s1 h
    simp [parse_command] at h
  | succ f ihf =>
    intro s c s1 h
    simp only [parse_command] at h
    split_ifs at h with h1
    · rw [pseq_ok] at h
      obtain ⟨sc, t1, hsc, h⟩ := h
      rw [pseq_ok] at h
      obtain ⟨cmd, t2, hcmd, hres⟩ := h
      simp only [Except.ok.injEq, Prod.mk.injEq] at hres
      obtain ⟨-, hs⟩ := hres
      subst hs
      exact ihf _ _ _ hcmd
    · simp only [Except.ok.injEq, Prod.mk.injEq] at h
      obtain ⟨-, hs⟩ := h
      subst hs
      simp only [Bool.not_eq_true] at h1
      exact h1

theorem parse_command_of_nonstarter {s : PState} {f : Nat}
    (h : isCommandStarter (cur s).kind = false) :
    parse_command (f+1) s = .ok (⟨[]⟩, s) := by
  simp [parse_command, h]

/-- Every fallible result is an error or a value. -/
theorem except_cases {α : Type} (x : Except Err α) :
    (∃ e, x = .error e) ∨ (∃ v, x = .ok v) := by
  cases x with
  | error e => exact Or.inl ⟨e, rfl⟩
  | ok v => exact Or.inr ⟨v, rfl⟩

/-- C5: In `parse_single_declaration`'s function branch the second
`parse_command` call (src/parser.py line 108) is a no-op: after the first
body parse the lookahead can no longer start a command, so the second call
consumes no terminals and returns an empty `Command` whose result is
discarded, and the variant of the parser with that call removed returns
the same `FuncDeclaration` node and leaves the stream at the same
position on every input on which the original settles (the fuel
hypothesis is an artifact of the embedding; `parse_settles` discharges it
for every stream). -/
theorem second_body_parse_noop :
    (∀ f s, parse_single_declaration f s ≠ .error .fuel →
      parse_single_declaration_variant f s = parse_single_declaration f s)
    ∧ (∀ f g s c s1, parse_command f s = .ok (c, s1) →
      parse_command (g+1) s1 = .ok (⟨[]⟩, s1)) := by
  constructor
  · intro f s hne
    cases f with
    | zero => exact absurd rfl hne
    | succ g =>
      simp only [parse_single_declaration] at hne
      simp only [parse_single_declaration, parse_single_declaration_variant]
      split_ifs with h1 h2 h3
      · -- the function branch
        rw [if_pos h1] at hne
        rcases except_cases (accept .FUNC s) with ⟨e, hF⟩ | ⟨⟨b1, t1⟩, hF⟩
        · simp only [pseq_of_error hF]
        · simp only [pseq_of_ok hF] at hne ⊢
          rcases except_cases (accept .IDENTIFIER t1) with ⟨e, hID⟩ | ⟨⟨i2, t2⟩, hID⟩
          · simp only [pseq_of_error hID]
          · simp only [pseq_of_ok hID] at hne ⊢
            rcases except_cases (accept .LEFT_PAR t2) with ⟨e, hLP⟩ | ⟨⟨b3, t3⟩, hLP⟩
            · simp only [pseq_of_error hLP]
            · simp only [pseq_of_ok hLP] at hne ⊢
              rcases except_cases (parse_expressions_list g t3) with
                ⟨e, hXLc⟩ | ⟨⟨ar, t4⟩, hXLc⟩
              · simp only [pseq_of_error hXLc]
              · simp only [pseq_of_ok hXLc] at hne ⊢
                rcases except_cases (accept .RIGHT_PAR t4) with ⟨e, hRP⟩ | ⟨⟨b5, t5⟩, hRP⟩
                · simp only [pseq_of_error hRP]
                · simp only [pseq_of_ok hRP] at hne ⊢
                  rcases except_cases (accept .COLON t5) with ⟨e, hCO⟩ | ⟨⟨b6, t6⟩, hCO⟩
                  · simp only [pseq_of_error hCO]
                  · simp only [pseq_of_ok hCO] at hne ⊢
                    rcases except_cases (parse_command g t6) with
                      ⟨e, hC1⟩ | ⟨⟨cm, t7⟩, hC1⟩
                    · simp only [pseq_of_error hC1]
                    · simp only [pseq_of_ok hC1] at hne ⊢
                      have hpost := parse_command_post _ _ _ _ hC1
                      cases g with
                      | zero =>
                        rw [pseq_of_error (show parse_command 0 t7 = .error .fuel
                          from rfl)] at hne
                        exact absurd rfl hne
                      | succ g2 =>
                        rw [pseq_of_ok (parse_command_of_nonstarter hpost)]
      · rfl
      · rfl
      · rfl
  · intro f g s c s1 h
    exact parse_command_of_nonstarter (parse_command_post _ _ _ _ h)

/-! ### The claims -/

/-- C1 (code bug in the source): parsing the token stream of
`if (x) : y; end`, whose if-statement omits the else keyword, does not
produce an `IfStatement` carrying an explicit "no else" marker as the
spec requires: after accepting `end`, `parse_single_statement` evaluates
the never-bound local `elseBlock` (src/parser.py line 70), so the parse
aborts with Python's `UnboundLocalError`, embedded as
`Err.unboundLocal`. -/
theorem if_missing_else_unbound_local :
    parse_program 32 ifNoElseToks = .error .unboundLocal := rfl

/-- C2 (code bug in the source): the end-to-end scenario fails on the
code.  On the terminal stream of `func add(a, b): return a + b; end` the
return-statement branch never consumes the statement terminator, so
`accept(K.END)` meets the semicolon and the parse aborts with
`UnexpectedToken` instead of succeeding.  Even on the variant stream
without the semicolon, which does parse, the resulting `FuncDeclaration`
carries the boolean `True` returned by `accept(K.IDENTIFIER)`
(src/parser.py line 102) instead of an identifier spelled `"add"`; the
argument list and the return-statement body do match the claim. -/
theorem func_add_scenario_diverges :
    parse_program 32 funcAddToks =
      .error (.unexpectedToken .END ⟨.SEMICOLON, ";", 1, 29⟩ 1 29)
    ∧ parse_program 32 funcAddNoSemiToks =
      .ok ⟨⟨[.declarationCommand ⟨[.funcDeclaration true
        (some ⟨[.varExpression (some ⟨"a"⟩), .varExpression (some ⟨"b"⟩)]⟩)
        ⟨[.statementCommand (some (.returnStatement (.binaryExpression ⟨"+"⟩
          (.varExpression (some ⟨"a"⟩)) (.varExpression (some ⟨"b"⟩)))))]⟩]⟩]⟩⟩ :=
  ⟨rfl, rfl⟩

/-- C3 (counterexample): `parse_identifier` does not follow `accept`'s
pattern on a mismatch: on a lookahead of operator kind it returns without
a value (Python `None`), consuming nothing and raising nothing, rather
than failing with an `UnexpectedToken` diagnostic. -/
theorem parse_identifier_mismatch_returns_none :
    parse_identifier [⟨.OPERATOR, "+", 1, 1⟩] = (none, [⟨.OPERATOR, "+", 1, 1⟩]) := rfl

/-- C3 (amended): on a kind match each leaf helper captures the spelling
into the terminal node and advances, like `accept`; on a mismatch
`parse_operator` (and `accept`) fail with an `UnexpectedToken` diagnostic
carrying expected kind, actual terminal and source position, but
`parse_identifier` and `parse_integer_literal` instead return no value
(Python `None`) without consuming and without failing. -/
theorem leaf_helpers_behavior :
    (∀ s : PState, (cur s).kind = .IDENTIFIER →
      parse_identifier s = (some ⟨(cur s).spelling⟩, adv s)) ∧
    (∀ s : PState, (cur s).kind ≠ .IDENTIFIER → parse_identifier s = (none, s)) ∧
    (∀ s : PState, (cur s).kind = .INTEGER_LITERAL →
      parse_integer_literal s = (some ⟨(cur s).spelling⟩, adv s)) ∧
    (∀ s : PState, (cur s).kind ≠ .INTEGER_LITERAL → parse_integer_literal s = (none, s)) ∧
    (∀ s : PState, (cur s).kind = .OPERATOR →
      parse_operator s = .ok (⟨(cur s).spelling⟩, adv s)) ∧
    (∀ s : PState, (cur s).kind ≠ .OPERATOR →
      parse_operator s =
        .error (.unexpectedToken .OPERATOR (cur s) (cur s).line (cur s).col)) ∧
    (∀ (k : Kind) (s : PState), (cur s).kind = k → accept k s = .ok (true, adv s)) ∧
    (∀ (k : Kind) (s : PState), (cur s).kind ≠ k →
      accept k s = .error (.unexpectedToken k (cur s) (cur s).line (cur s).col)) :=
  ⟨fun _ h => parse_identifier_eq_of_kind h,
   fun _ h => parse_identifier_eq_of_ne h,
   fun _ h => parse_integer_literal_eq_of_kind h,
   fun _ h => parse_integer_literal_eq_of_ne h,
   fun _ h => parse_operator_eq_ok h,
   fun _ h => parse_operator_eq_error h,
   fun _ _ h => accept_eq_ok h,
   fun _ _ h => accept_eq_error h⟩

/-- C3 (witness): the amended behavior at concrete streams. -/
theorem leaf_helpers_behavior_witness :
    parse_identifier [⟨.IDENTIFIER, "x", 1, 1⟩] = (some ⟨"x"⟩, []) ∧
    parse_operator [⟨.COLON, ":", 1, 4⟩] =
      .error (.unexpectedToken .OPERATOR ⟨.COLON, ":", 1, 4⟩ 1 4) ∧
    accept .COLON [⟨.COLON, ":", 1, 4⟩] = .ok (true, []) :=
  ⟨leaf_helpers_behavior.1 [⟨.IDENTIFIER, "x", 1, 1⟩] rfl,
   leaf_helpers_behavior.2.2.2.2.2.1 [⟨.COLON, ":", 1, 4⟩] (by decide),
   leaf_helpers_behavior.2.2.2.2.2.2.1 .COLON [⟨.COLON, ":", 1, 4⟩] rfl⟩

/-- C4: the operator-chaining loop of `parse_expression` left-folds, with
no precedence levels, so the non-identifier-led chain `1 + 2 + 3` parses
strictly left-nested and the mixed chain `1 + 2 * 3` parses flat
left-to-right; by contrast an identifier immediately followed by an
operator goes through `parse_single_expression`'s recursion into the full
chaining production, so the identifier-led chain `a + b + c` parses
right-nested. -/
theorem expression_chaining_shapes :
    parse_expression 32
      [⟨.INTEGER_LITERAL, "1", 1, 1⟩, ⟨.OPERATOR, "+", 1, 3⟩,
       ⟨.INTEGER_LITERAL, "2", 1, 5⟩, ⟨.OPERATOR, "+", 1, 7⟩,
       ⟨.INTEGER_LITERAL, "3", 1, 9⟩] =
      .ok (.binaryExpression ⟨"+"⟩
        (.binaryExpression ⟨"+"⟩ (.intLiteralExpression (some ⟨"1"⟩))
          (.intLiteralExpression (some ⟨"2"⟩)))
        (.intLiteralExpression (some ⟨"3"⟩)), [])
    ∧ parse_expression 32
      [⟨.INTEGER_LITERAL, "1", 1, 1⟩, ⟨.OPERATOR, "+", 1, 3⟩,
       ⟨.INTEGER_LITERAL, "2", 1, 5⟩, ⟨.OPERATOR, "*", 1, 7⟩,
       ⟨.INTEGER_LITERAL, "3", 1, 9⟩] =
      .ok (.binaryExpression ⟨"*"⟩
        (.binaryExpression ⟨"+"⟩ (.intLiteralExpression (some ⟨"1"⟩))
          (.intLiteralExpression (some ⟨"2"⟩)))
        (.intLiteralExpression (some ⟨"3"⟩)), [])
    ∧ parse_expression 32
      [⟨.IDENTIFIER, "a", 1, 1⟩, ⟨.OPERATOR, "+", 1, 3⟩, ⟨.IDENTIFIER, "b", 1, 5⟩,
       ⟨.OPERATOR, "+", 1, 7⟩, ⟨.IDENTIFIER, "c", 1, 9⟩] =
      .ok (.binaryExpression ⟨"+"⟩ (.varExpression (some ⟨"a"⟩))
        (.binaryExpression ⟨"+"⟩ (.varExpression (some ⟨"b"⟩))
          (.varExpression (some ⟨"c"⟩))), []) :=
  ⟨rfl, rfl, rfl⟩

/-- C6: `parse_program` parses one command sequence and then requires the
lookahead to be the end-of-input terminal: if it is not, it fails with
`UnexpectedEndOfProgram` carrying the offending terminal; if it is, it
returns a `Program` wrapping the command sequence.  An immediately
end-of-input stream yields a `Program` with an empty command sequence. -/
theorem parse_program_eot_check :
    (∀ (f : Nat) (s : PState) command s1, parse_command f s = .ok (command, s1) →
      ((cur s1).kind ≠ .EOT →
        parse_program f s = .error (.unexpectedEndOfProgram (cur s1))) ∧
      ((cur s1).kind = .EOT → parse_program f s = .ok ⟨command⟩)) ∧
    (∀ f : Nat, parse_program (f+1) [] = .ok ⟨⟨[]⟩⟩) := by
  constructor
  · intro f s command s1 h
    constructor
    · intro hk
      simp only [parse_program, pseq_of_ok h]
      rw [if_pos hk]
    · intro hk
      simp only [parse_program, pseq_of_ok h]
      rw [if_neg (by simp [hk])]
  · intro f
    have h : parse_command (f+1) [] = .ok (⟨[]⟩, []) :=
      parse_command_of_nonstarter (by decide)
    simp only [parse_program, pseq_of_ok h]
    rw [if_neg (by decide)]

/-- C6 (witness): trailing terminals raise `UnexpectedEndOfProgram` at a
concrete stream, and the empty stream yields the empty program. -/
theorem parse_program_eot_check_witness :
    parse_program 1 [⟨.COLON, ":", 1, 1⟩] =
      .error (.unexpectedEndOfProgram ⟨.COLON, ":", 1, 1⟩) ∧
    parse_program 1 [] = .ok ⟨⟨[]⟩⟩ :=
  ⟨(parse_program_eot_check.1 1 [⟨.COLON, ":", 1, 1⟩] ⟨[]⟩ [⟨.COLON, ":", 1, 1⟩]
      rfl).1 (by decide),
   parse_program_eot_check.2 0⟩

/-- C5 (witness): on the stream of `func empty(): end` the variant
without the second body parse returns the same result as the original. -/
theorem second_body_parse_noop_witness :
    parse_single_declaration_variant 8
      [⟨.FUNC, "func", 1, 1⟩, ⟨.IDENTIFIER, "empty", 1, 6⟩, ⟨.LEFT_PAR, "(", 1, 11⟩,
       ⟨.RIGHT_PAR, ")", 1, 12⟩, ⟨.COLON, ":", 1, 13⟩, ⟨.END, "end", 1, 15⟩] =
    parse_single_declaration 8
      [⟨.FUNC, "func", 1, 1⟩, ⟨.IDENTIFIER, "empty", 1, 6⟩, ⟨.LEFT_PAR, "(", 1, 11⟩,
       ⟨.RIGHT_PAR, ")", 1, 12⟩, ⟨.COLON, ":", 1, 13⟩, ⟨.END, "end", 1, 15⟩] ∧
    parse_command 8 [⟨.IDENTIFIER, "x", 1, 1⟩, ⟨.SEMICOLON, ";", 1, 2⟩] =
      .ok (⟨[.statementCommand (some (.expressionStatement
        (.varExpression (some ⟨"x"⟩))))]⟩, []) ∧
    parse_command 1 [] = .ok (⟨[]⟩, []) :=
  ⟨second_body_parse_noop.1 8 _ (by
      intro hcon
      have hval : parse_single_declaration 8
          [⟨.FUNC, "func", 1, 1⟩, ⟨.IDENTIFIER, "empty", 1, 6⟩, ⟨.LEFT_PAR, "(", 1, 11⟩,
           ⟨.RIGHT_PAR, ")", 1, 12⟩, ⟨.COLON, ":", 1, 13⟩, ⟨.END, "end", 1, 15⟩] =
          .ok (.funcDeclaration true none ⟨[]⟩, []) := rfl
      rw [hval] at hcon
      exact Except.noConfusion hcon),
   rfl,
   second_body_parse_noop.2 8 0 [⟨.IDENTIFIER, "x", 1, 1⟩, ⟨.SEMICOLON, ";", 1, 2⟩]
     ⟨[.statementCommand (some (.expressionStatement (.varExpression (some ⟨"x"⟩))))]⟩
     [] rfl⟩

/-- C7 (counterexample): the loop guard of `parse_declaration` is not
"function-keyword or identifier-kind terminal spelled as a reserved type
name": a terminal of kind `END` spelled `"int"` satisfies the code's
guard (`declLoopCond`) although it is not of identifier kind
(`declLoopCondSpec`, the guard the claim describes, rejects it), and on
such a lookahead `parse_declaration` re-enters the loop and fails with
`UnsupportedDeclarationToken` instead of stopping. -/
theorem decl_loop_guard_ignores_kind :
    declLoopCond ⟨.END, "int", 1, 1⟩ = true ∧
    declLoopCondSpec ⟨.END, "int", 1, 1⟩ = false ∧
    parse_declaration 32 [⟨.END, "int", 1, 1⟩] =
      .error (.unsupportedDeclarationToken ⟨.END, "int", 1, 1⟩ 1 1) :=
  ⟨rfl, rfl, rfl⟩

/-- C7 (amended): `parse_single_command` routes a lookahead to the
declaration path exactly when it is the function-keyword or an
identifier-kind terminal spelled as a reserved type name (with a trailing
statement terminator required in the identifier case), while
`parse_declaration`'s append loop continues exactly while the lookahead
satisfies `declLoopCond`, i.e. is the function-keyword or any terminal
whose spelling is a reserved type name, regardless of its kind. -/
theorem type_name_routing :
    (∀ (f : Nat) (s : PState) c s1, parse_single_command f s = .ok (c, s1) →
      ((∃ d, c = .declarationCommand d) ↔
        ((cur s).kind = .FUNC ∨
          ((cur s).kind = .IDENTIFIER ∧ isTypeName (cur s).spelling = true)))) ∧
    (∀ (f : Nat) (s : PState), (cur s).kind = .IDENTIFIER →
      isTypeName (cur s).spelling = true →
      parse_single_command (f+1) s =
        (pseq (parse_declaration f s) fun d s1 =>
         pseq (accept .SEMICOLON s1) fun _ s2 =>
         .ok (.declarationCommand d, s2))) ∧
    (∀ (f : Nat) (s : PState), declLoopCond (cur s) = true →
      parse_declaration (f+1) s =
        (pseq (parse_single_declaration f s) fun d s1 =>
         pseq (parse_declaration f s1) fun dcl s2 =>
         .ok (⟨d :: dcl.declarations⟩, s2))) ∧
    (∀ (f : Nat) (s : PState), declLoopCond (cur s) = false →
      parse_declaration (f+1) s = .ok (⟨[]⟩, s)) := by
  refine ⟨?_, ?_, ?_, ?_⟩
  · intro f s c s1 h
    cases f with
    | zero => simp [parse_single_command] at h
    | succ g =>
      simp only [parse_single_command] at h
      split_ifs at h with h1 h2 h3 h4
      · rw [pseq_ok] at h
        obtain ⟨d, t1, hd, hres⟩ := h
        simp only [Except.ok.injEq, Prod.mk.injEq] at hres
        obtain ⟨hv, -⟩ := hres
        subst hv
        exact iff_of_true ⟨d, rfl⟩ (Or.inl h1)
      · rw [pseq_ok] at h
        obtain ⟨st, t1, hst, hres⟩ := h
        simp only [Except.ok.injEq, Prod.mk.injEq] at hres
        obtain ⟨hv, -⟩ := hres
        subst hv
        refine iff_of_false (by rintro ⟨d, hd⟩; exact SingleCommand.noConfusion hd) ?_
        have hk := (isStatementKeyword_iff _).1 h2
        rintro (h5 | ⟨h5, -⟩) <;>
          rcases hk with a | a | a <;> rw [h5] at a <;> exact absurd a (by decide)
      · rw [pseq_ok] at h
        obtain ⟨d, t1, hd, h⟩ := h
        rw [pseq_ok] at h
        obtain ⟨b2, t2, hsemi, hres⟩ := h
        simp only [Except.ok.injEq, Prod.mk.injEq] at hres
        obtain ⟨hv, -⟩ := hres
        subst hv
        exact iff_of_true ⟨d, rfl⟩ (Or.inr ⟨h3, h4⟩)
      · rw [pseq_ok] at h
        obtain ⟨st, t1, hst, h⟩ := h
        rw [pseq_ok] at h
        obtain ⟨b2, t2, hsemi, hres⟩ := h
        simp only [Except.ok.injEq, Prod.mk.injEq] at hres
        obtain ⟨hv, -⟩ := hres
        subst hv
        refine iff_of_false (by rintro ⟨d, hd⟩; exact SingleCommand.noConfusion hd) ?_
        rintro (h5 | ⟨-, h6⟩)
        · exact h1 h5
        · exact h4 h6
  · intro f s h1 h2
    simp only [parse_single_command]
    rw [if_neg (by simp [h1]), if_neg (by simp [isStatementKeyword, h1]),
      if_pos h1, if_pos h2]
  · intro f s h
    simp only [parse_declaration]
    rw [if_pos h]
  · intro f s h
    simp only [parse_declaration]
    rw [if_neg (by simp [h])]

/-- C7 (witness): the routing characterization at a concrete
statement-routing run, and the loop-guard exit at the empty stream. -/
theorem type_name_routing_witness :
    ((∃ d, SingleCommand.statementCommand (some (.expressionStatement
        (.varExpression (some ⟨"x"⟩)))) = .declarationCommand d) ↔
      ((cur [⟨Kind.IDENTIFIER, "x", 1, 1⟩, ⟨Kind.SEMICOLON, ";", 1, 2⟩]).kind = .FUNC ∨
        ((cur [⟨Kind.IDENTIFIER, "x", 1, 1⟩, ⟨Kind.SEMICOLON, ";", 1, 2⟩]).kind =
            .IDENTIFIER ∧
          isTypeName
            (cur [⟨Kind.IDENTIFIER, "x", 1, 1⟩, ⟨Kind.SEMICOLON, ";", 1, 2⟩]).spelling =
            true))) ∧
    parse_declaration 1 [] = .ok (⟨[]⟩, []) :=
  ⟨type_name_routing.1 8 [⟨Kind.IDENTIFIER, "x", 1, 1⟩, ⟨Kind.SEMICOLON, ";", 1, 2⟩]
      (SingleCommand.statementCommand (some (.expressionStatement
        (.varExpression (some ⟨"x"⟩))))) [] rfl,
   type_name_routing.2.2.2 0 [] rfl⟩

/-- C8: `parse_expressions_list` returns no value at all (Python `None`,
not an empty list), consuming nothing, when the lookahead kind cannot
start an expression; otherwise it parses one expression and then, while
the lookahead is a comma, consumes the comma and appends another
expression.  Consequently the zero-argument call site `f()` yields a
`CallExpression` whose argument list is absent. -/
theorem expressions_list_absent_without_starter :
    (∀ (f : Nat) (s : PState), isExprStarter (cur s).kind = false →
      parse_expressions_list (f+1) s = .ok (none, s)) ∧
    (∀ (f : Nat) (s : PState), isExprStarter (cur s).kind = true →
      parse_expressions_list (f+1) s =
        (pseq (parse_expression f s) fun e s1 =>
         pseq (parse_expressions_list_loop f [e] s1) fun el s2 =>
         .ok (some el, s2))) ∧
    (∀ (f : Nat) (acc : List Expression) (s : PState), (cur s).kind = .COMMA →
      parse_expressions_list_loop (f+1) acc s =
        (pseq (parse_expression f (adv s)) fun e s2 =>
         parse_expressions_list_loop f (acc ++ [e]) s2)) ∧
    (∀ (f : Nat) (acc : List Expression) (s : PState), (cur s).kind ≠ .COMMA →
      parse_expressions_list_loop (f+1) acc s = .ok (⟨acc⟩, s)) ∧
    parse_single_expression 32
      [⟨.IDENTIFIER, "f", 1, 1⟩, ⟨.LEFT_PAR, "(", 1, 2⟩, ⟨.RIGHT_PAR, ")", 1, 3⟩] =
      .ok (.callExpression (some ⟨"f"⟩) none, []) := by
  refine ⟨?_, ?_, ?_, ?_, rfl⟩
  · intro f s h
    simp only [parse_expressions_list]
    rw [if_neg (by simp [h])]
  · intro f s h
    simp only [parse_expressions_list]
    rw [if_pos h]
  · intro f acc s h
    simp only [parse_expressions_list_loop]
    rw [if_pos h, pseq_of_ok (accept_eq_ok h)]
  · intro f acc s h
    simp only [parse_expressions_list_loop]
    rw [if_neg h]

/-- C8 (witness): the absent-value exit and the loop exit at concrete
streams. -/
theorem expressions_list_absent_without_starter_witness :
    parse_expressions_list 1 [⟨.RIGHT_PAR, ")", 1, 1⟩] =
      .ok (none, [⟨.RIGHT_PAR, ")", 1, 1⟩]) ∧
    parse_expressions_list_loop 1 [] [⟨.RIGHT_PAR, ")", 1, 1⟩] =
      .ok (⟨[]⟩, [⟨.RIGHT_PAR, ")", 1, 1⟩]) :=
  ⟨expressions_list_absent_without_starter.1 0 [⟨.RIGHT_PAR, ")", 1, 1⟩] rfl,
   expressions_list_absent_without_starter.2.2.2.1 0 [] [⟨.RIGHT_PAR, ")", 1, 1⟩]
     (by decide)⟩

/-- C9: for every finite terminal stream (extended with the end-of-input
terminal once exhausted) the parser terminates: with fuel linear in the
stream length `parse_program` settles — it returns a `Program` or raises
an error, never exhausting its fuel — and the loop bodies consume at
least one terminal per iteration: in particular every successful
`parse_single_command` (the body of `parse_command`'s loop) and every
successful `parse_single_declaration` (the body of `parse_declaration`'s
loop) strictly shrink the stream. -/
theorem parser_terminates :
    (∀ ts : PState, ∃ f,
      (∃ p, parse_program f ts = .ok p) ∨
      (∃ e, e ≠ Err.fuel ∧ parse_program f ts = .error e)) ∧
    (∀ (f : Nat) (s : PState) sc s1, parse_single_command f s = .ok (sc, s1) →
      s1.length < s.length) ∧
    (∀ (f : Nat) (s : PState) d s1, parse_single_declaration f s = .ok (d, s1) →
      s1.length < s.length) := by
  refine ⟨?_, ?_, ?_⟩
  · intro ts
    refine ⟨8 * ts.length + 8, ?_⟩
    have hset := (parse_settles ts.length).2.2.2.2.2.2.2.2.2 ts (8 * ts.length + 8)
      le_rfl le_rfl
    rcases except_cases (parse_command (8 * ts.length + 8) ts) with
      ⟨e, hc⟩ | ⟨⟨cmd, s1⟩, hc⟩
    · refine Or.inr ⟨e, fun hf => hset (hf ▸ hc), ?_⟩
      simp only [parse_program, pseq_of_error hc]
    · by_cases hk : (cur s1).kind = .EOT
      · refine Or.inl ⟨⟨cmd⟩, ?_⟩
        simp only [parse_program, pseq_of_ok hc]
        rw [if_neg (by simp [hk])]
      · refine Or.inr ⟨.unexpectedEndOfProgram (cur s1), by simp, ?_⟩
        simp only [parse_program, pseq_of_ok hc]
        rw [if_pos hk]
  · intro f s sc s1 h
    exact (parse_consumes f).2.1 s sc s1 h
  · intro f s d s1 h
    exact (parse_consumes f).2.2.2.2.1 s d s1 h

/-- C9 (witness): the strict-consumption components at concrete runs, and
termination at the empty stream. -/
theorem parser_terminates_witness :
    (([] : PState).length <
      ([⟨Kind.IDENTIFIER, "x", 1, 1⟩, ⟨Kind.SEMICOLON, ";", 1, 2⟩] : PState).length) ∧
    (([] : PState).length <
      ([⟨Kind.IDENTIFIER, "int", 1, 1⟩, ⟨Kind.IDENTIFIER, "x", 1, 5⟩] : PState).length) :=
  ⟨parser_terminates.2.1 8 [⟨Kind.IDENTIFIER, "x", 1, 1⟩, ⟨Kind.SEMICOLON, ";", 1, 2⟩]
      (.statementCommand (some (.expressionStatement (.varExpression (some ⟨"x"⟩)))))
      [] rfl,
   parser_terminates.2.2 8 [⟨Kind.IDENTIFIER, "int", 1, 1⟩, ⟨Kind.IDENTIFIER, "x", 1, 5⟩]
      (.varDeclaration ⟨some ⟨"int"⟩⟩ (some ⟨"x"⟩)) [] rfl⟩

/-- C10: parsing is deterministic: two runs of `parse_program` on
terminal streams with identical sequences of kind, spelling and source
position produce structurally equal results — the outcome depends on
nothing but the input stream. -/
theorem parsing_deterministic :
    ∀ (f : Nat) (ts1 ts2 : PState),
      ts1.map (fun t => (t.kind, t.spelling, t.line, t.col)) =
        ts2.map (fun t => (t.kind, t.spelling, t.line, t.col)) →
      parse_program f ts1 = parse_program f ts2 := by
  intro f ts1 ts2 h
  have hinj : Function.Injective (fun t : Terminal => (t.kind, t.spelling, t.line, t.col)) := by
    intro a b hab
    cases a
    cases b
    simpa using hab
  rw [List.map_injective_iff.mpr hinj h]

/-- C10 (witness): determinism applied at concrete equal streams. -/
theorem parsing_deterministic_witness :
    parse_program 1 [⟨Kind.EOT, "", 1, 1⟩] = parse_program 1 [⟨Kind.EOT, "", 1, 1⟩] :=
  parsing_deterministic 1 [⟨Kind.EOT, "", 1, 1⟩] [⟨Kind.EOT, "", 1, 1⟩] rfl
